import Mathlib

/-!
Verification development for the `repulsive_curves_implementation` JavaScript
repository (fractional-Sobolev descent on repulsive curves).

Modelling conventions of this shallow embedding:

* Numbers are `ℚ`.  The JavaScript runtime computes with IEEE doubles; every
  concrete input used in a witness or counterexample below is chosen so that
  all square roots taken along the evaluated path are square roots of perfect
  rational squares, where the model below is exact.  `jsqrt` models
  `Math.sqrt` (exact on perfect squares of non-negative rationals), and `jpow`
  models `Math.pow` (exact for integer exponents, which is the only case the
  evaluated paths reach; a non-integer exponent yields the junk value 0, never
  hit by any theorem below).
* The dense-matrix substrate (mathjs) is modelled by total functions
  `ℕ → ℕ → ℚ` with functional `set`/accumulating `set(get + v)` updates, and
  vertex rows by `Vec3` values; an out-of-range vertex lookup in the staged
  (`Except`) embeddings is modelled as a generic matrix-access fault, which is
  what the library raises.
* JavaScript binding semantics relevant to the claims are modelled faithfully:
  a `let` declared inside a block is not visible outside it, and an assignment
  to a `const` binding raises a `TypeError` at the point of assignment.
-/

/-- Binary-search floor square root on ℕ (structurally recursive on a bit
budget, so that concrete evaluations reduce inside the kernel); exact floor
square root for every `n < 2 ^ 80`. -/
def isqrtGo (n : ℕ) : ℕ → ℕ → ℕ
  | 0, acc => acc
  | fuel + 1, acc =>
    if (acc + 2 ^ fuel) * (acc + 2 ^ fuel) ≤ n then
      isqrtGo n fuel (acc + 2 ^ fuel)
    else isqrtGo n fuel acc

/-- Floor square root with a 40-bit budget. -/
def isqrt (n : ℕ) : ℕ := isqrtGo n 40 0

/-- Rational model of `Math.sqrt`: exact whenever the argument is a perfect
square of a non-negative rational (numerator and denominator both perfect
squares below `2 ^ 80`); all concrete evaluations in this file only take
square roots of such values wherever the value influences a theorem. -/
def jsqrt (q : ℚ) : ℚ :=
  (isqrt q.num.toNat : ℚ) / (isqrt q.den : ℚ)

/-- Rational model of `Math.pow`: exact for integer exponents (the only
exponents reached by the theorems below, since the callers use
`alpha = 2, beta = 4`, giving `2*sigma + 1 = 4`); returns 0 on a non-integer
exponent. -/
def jpow (x e : ℚ) : ℚ :=
  if e.den = 1 then
    (if 0 ≤ e.num then x ^ e.num.toNat else (x ^ (-e.num).toNat)⁻¹)
  else 0

theorem jsqrt_nonneg (q : ℚ) : 0 ≤ jsqrt q := by
  unfold jsqrt
  positivity

theorem jpow_nonneg {x : ℚ} (hx : 0 ≤ x) (e : ℚ) : 0 ≤ jpow x e := by
  unfold jpow
  split
  · split
    · positivity
    · positivity
  · exact le_refl 0

/-! Evaluation lemmas for `jsqrt` and `jpow` on the concrete values reached by
the witnesses and counterexamples below (all perfect squares / integer
exponents, where the rational model is exact). -/

theorem jsqrt_natCast (n : ℕ) : jsqrt (n : ℚ) = isqrt n := by
  unfold jsqrt
  rw [Rat.num_natCast, Rat.den_natCast, Int.toNat_natCast]
  rw [show isqrt 1 = 1 from by decide]
  norm_num

theorem jsqrt_lit_0 : jsqrt 0 = 0 := by
  rw [show (0 : ℚ) = ((0 : ℕ) : ℚ) by norm_num, jsqrt_natCast,
    show isqrt 0 = 0 from by decide]

theorem jsqrt_lit_1 : jsqrt 1 = 1 := by
  rw [show (1 : ℚ) = ((1 : ℕ) : ℚ) by norm_num, jsqrt_natCast,
    show isqrt 1 = 1 from by decide]

theorem jsqrt_lit_4 : jsqrt 4 = 2 := by
  rw [show (4 : ℚ) = ((4 : ℕ) : ℚ) by norm_num, jsqrt_natCast,
    show isqrt 4 = 2 from by decide]
  norm_num

theorem jsqrt_lit_16 : jsqrt 16 = 4 := by
  rw [show (16 : ℚ) = ((16 : ℕ) : ℚ) by norm_num, jsqrt_natCast,
    show isqrt 16 = 4 from by decide]
  norm_num

theorem jsqrt_lit_25 : jsqrt 25 = 5 := by
  rw [show (25 : ℚ) = ((25 : ℕ) : ℚ) by norm_num, jsqrt_natCast,
    show isqrt 25 = 5 from by decide]
  norm_num

theorem jsqrt_lit_81 : jsqrt 81 = 9 := by
  rw [show (81 : ℚ) = ((81 : ℕ) : ℚ) by norm_num, jsqrt_natCast,
    show isqrt 81 = 9 from by decide]
  norm_num

theorem jsqrt_lit_144 : jsqrt 144 = 12 := by
  rw [show (144 : ℚ) = ((144 : ℕ) : ℚ) by norm_num, jsqrt_natCast,
    show isqrt 144 = 12 from by decide]
  norm_num

theorem jsqrt_lit_169 : jsqrt 169 = 13 := by
  rw [show (169 : ℚ) = ((169 : ℕ) : ℚ) by norm_num, jsqrt_natCast,
    show isqrt 169 = 13 from by decide]
  norm_num

theorem jsqrt_lit_225 : jsqrt 225 = 15 := by
  rw [show (225 : ℚ) = ((225 : ℕ) : ℚ) by norm_num, jsqrt_natCast,
    show isqrt 225 = 15 from by decide]
  norm_num

theorem jpow_two (x : ℚ) : jpow x 2 = x ^ 2 := by
  unfold jpow
  norm_num
  rw [show Int.toNat 2 = 2 from rfl]

theorem jpow_four (x : ℚ) : jpow x 4 = x ^ 4 := by
  unfold jpow
  norm_num
  rw [show Int.toNat 4 = 4 from rfl]

/-- A point of ℝ³ in the model (one row of the vertex matrix `V` or of the
tangent matrix `T`). -/
structure Vec3 where
  x : ℚ
  y : ℚ
  z : ℚ
deriving DecidableEq, Repr

/-- Source helper `subtractVectors`. -/
def subV (a b : Vec3) : Vec3 := ⟨a.x - b.x, a.y - b.y, a.z - b.z⟩

/-- Source helper `addVectors`. -/
def addV (a b : Vec3) : Vec3 := ⟨a.x + b.x, a.y + b.y, a.z + b.z⟩

/-- Source helper `scaleVector`. -/
def scaleV (a : Vec3) (s : ℚ) : Vec3 := ⟨a.x * s, a.y * s, a.z * s⟩

/-- Source helper `crossProduct`. -/
def crossV (a b : Vec3) : Vec3 :=
  ⟨a.y * b.z - a.z * b.y, a.z * b.x - a.x * b.z, a.x * b.y - a.y * b.x⟩

/-- Source helper `dotProduct` on 3-vectors. -/
def dotV (a b : Vec3) : ℚ := a.x * b.x + a.y * b.y + a.z * b.z

/-- Sum of squares of the components (`v.reduce((sum,x) => sum + x*x, 0)`). -/
def sqSumV (a : Vec3) : ℚ := a.x * a.x + a.y * a.y + a.z * a.z

/-- Source helper `vectorNorm` on a 3-vector: `Math.sqrt` of the sum of
squares. -/
def normV (a : Vec3) : ℚ := jsqrt (sqSumV a)

/-- Source helper `vectorNorm` on a flat list of rationals. -/
def normL (l : List ℚ) : ℚ := jsqrt (l.foldl (fun s x => s + x * x) 0)

/-- Source helper `dotProduct` on flat arrays, modelled over an index range:
`v1.reduce((sum, x, i) => sum + x * v2[i], 0)`. -/
def dotL (n : ℕ) (v w : ℕ → ℚ) : ℚ :=
  ((List.range n).map (fun i => v i * w i)).sum

/-- Endpoint accessor: `E.get([I, a])` for a slot `a ∈ {0, 1}` of an edge
given as an index pair. -/
def ept (e : ℕ × ℕ) : ℕ → ℕ := fun a => if a = 0 then e.1 else e.2

namespace InitCurve

/-!
Embedding of `init_curve` (file `unnamed/part_008`, first version, lines
19–92): the topology cache `Ac` (disjoint-edge lists), `E_adj` (per-vertex
incident-edge lists) and `lengths` (rest lengths).
-/

/-- The shared-endpoint test of the `Ac` loop (part_008 lines 42–48):
`E[i,0] = E[j,0] ∨ E[i,0] = E[j,1] ∨ E[i,1] = E[j,0] ∨ E[i,1] = E[j,1]`. -/
def sharesVertex (E : ℕ → ℕ × ℕ) (i j : ℕ) : Bool :=
  (E i).1 == (E j).1 || (E i).1 == (E j).2 ||
  (E i).2 == (E j).1 || (E i).2 == (E j).2

/-- The `Ac` construction loop: for each edge `i`, the row collects (in
increasing order) every edge `j` sharing no vertex with `i`. -/
def buildAc (E : ℕ → ℕ × ℕ) (edge_num : ℕ) : List (List ℕ) :=
  (List.range edge_num).map
    (fun i => (List.range edge_num).filter (fun j => !(sharesVertex E i j)))

/-- The `E_adj` construction loop: for each vertex `i`, the row collects every
edge `j` with `E[j,0] = i ∨ E[j,1] = i`. -/
def buildEadj (E : ℕ → ℕ × ℕ) (edge_num pt_num : ℕ) : List (List ℕ) :=
  (List.range pt_num).map
    (fun i => (List.range edge_num).filter
      (fun j => (E j).1 == i || (E j).2 == i))

/-- The rest-length loop: `lengths[i] = |V.row(E[i,0]) − V.row(E[i,1])|`. -/
def buildLengths (E : ℕ → ℕ × ℕ) (V : ℕ → Vec3) (edge_num : ℕ) : List ℚ :=
  (List.range edge_num).map (fun i => normV (subV (V (E i).1) (V (E i).2)))

/-- Fault model for the staged embedding: the only fault the library can raise
here is an out-of-range matrix access. -/
inductive JsFault where
  | matrixAccess : JsFault
deriving DecidableEq, Repr

/-- Checked vertex-row access, modelling that mathjs raises on an out-of-range
index. -/
def vrow (V : List Vec3) (i : ℕ) : Except JsFault Vec3 :=
  match V.get? i with
  | some v => Except.ok v
  | none => Except.error JsFault.matrixAccess

/-- Body of one pass of the `lengths` loop: two vertex-row reads and a norm
of a difference. -/
def edgeBody (V : List Vec3) (e : ℕ × ℕ) : Except JsFault ℚ := do
  let p ← vrow V e.1
  let q ← vrow V e.2
  pure (normV (subV p q))

/-- Staged run of `init_curve` on list inputs.  The `Ac` and `E_adj` loops
only read `E` and cannot fault; the `lengths` loop reads `V.row` at each edge
endpoint and faults on the first out-of-range index.  The function performs no
topology validation of its own. -/
def run (E : List (ℕ × ℕ)) (V : List Vec3) :
    Except JsFault (List (List ℕ) × List (List ℕ) × List ℚ) := do
  let lengths ← (List.range E.length).mapM
    (fun i => edgeBody V (E.getD i (0, 0)))
  pure (buildAc (fun i => E.getD i (0, 0)) E.length,
    buildEadj (fun i => E.getD i (0, 0)) E.length V.length, lengths)

theorem mem_buildAc_row {E : ℕ → ℕ × ℕ} {M I J : ℕ} (hI : I < M) :
    J ∈ (buildAc E M).getD I [] ↔ J < M ∧ sharesVertex E I J = false := by
  unfold buildAc
  rw [List.getD_eq_getElem?_getD, List.getElem?_map]
  simp [List.getElem?_range hI, List.mem_filter, List.mem_range]

theorem buildAc_row_empty {E : ℕ → ℕ × ℕ} {M I : ℕ} (hI : ¬ I < M) :
    (buildAc E M).getD I [] = [] := by
  unfold buildAc
  rw [List.getD_eq_getElem?_getD]
  have : M ≤ I := Nat.le_of_not_lt hI
  rw [List.getElem?_eq_none (by simpa using this)]
  rfl

theorem sharesVertex_symm (E : ℕ → ℕ × ℕ) (i j : ℕ) :
    sharesVertex E i j = sharesVertex E j i := by
  unfold sharesVertex
  rw [Bool.eq_iff_iff]
  simp only [Bool.or_eq_true, beq_iff_eq]
  constructor
  · rintro (((h | h) | h) | h)
    · exact Or.inl (Or.inl (Or.inl h.symm))
    · exact Or.inl (Or.inr h.symm)
    · exact Or.inl (Or.inl (Or.inr h.symm))
    · exact Or.inr h.symm
  · rintro (((h | h) | h) | h)
    · exact Or.inl (Or.inl (Or.inl h.symm))
    · exact Or.inl (Or.inr h.symm)
    · exact Or.inl (Or.inl (Or.inr h.symm))
    · exact Or.inr h.symm

theorem sharesVertex_refl (E : ℕ → ℕ × ℕ) (i : ℕ) :
    sharesVertex E i i = true := by
  unfold sharesVertex
  simp

theorem mem_buildEadj_row {E : ℕ → ℕ × ℕ} {M N p j : ℕ} (hp : p < N) :
    j ∈ (buildEadj E M N).getD p [] ↔
      j < M ∧ ((E j).1 = p ∨ (E j).2 = p) := by
  unfold buildEadj
  rw [List.getD_eq_getElem?_getD, List.getElem?_map]
  simp [List.getElem?_range hp, List.mem_filter, List.mem_range]

theorem isOk_ok {ε α : Type} (a : α) : (Except.ok a : Except ε α).isOk = true := rfl

theorem isOk_err {ε α : Type} (e : ε) :
    (Except.error e : Except ε α).isOk = false := rfl

theorem err_bind {ε α β : Type} (e : ε) (g : α → Except ε β) :
    ((Except.error e : Except ε α) >>= g) = Except.error e := rfl

theorem ok_bind {ε α β : Type} (a : α) (g : α → Except ε β) :
    ((Except.ok a : Except ε α) >>= g) = g a := rfl

theorem err_map {ε α β : Type} (e : ε) (g : α → β) :
    (g <$> (Except.error e : Except ε α)) = Except.error e := rfl

theorem ok_map {ε α β : Type} (a : α) (g : α → β) :
    (g <$> (Except.ok a : Except ε α)) = Except.ok (g a) := rfl

theorem vrow_isOk {V : List Vec3} {i : ℕ} :
    (vrow V i).isOk = true ↔ i < V.length := by
  unfold vrow
  cases h : V.get? i with
  | none =>
    have hlen := List.get?_eq_none.mp h
    simp only [isOk_err, Bool.false_eq_true, false_iff]
    omega
  | some v =>
    have hlt := List.get?_eq_some.mp h
    simp only [isOk_ok, true_iff]
    exact hlt.1

theorem pure_eq_ok {ε α : Type} (a : α) :
    (pure a : Except ε α) = Except.ok a := rfl

theorem edgeBody_isOk {V : List Vec3} {e : ℕ × ℕ} :
    (edgeBody V e).isOk = true ↔ e.1 < V.length ∧ e.2 < V.length := by
  rw [← vrow_isOk (V := V) (i := e.1), ← vrow_isOk (V := V) (i := e.2)]
  unfold edgeBody
  cases h1 : vrow V e.1 with
  | error f => simp [err_bind, isOk_err]
  | ok p =>
    cases h2 : vrow V e.2 with
    | error f => simp [ok_bind, err_bind, err_map, isOk_err, isOk_ok]
    | ok q => simp [ok_bind, ok_map, pure_eq_ok, isOk_err, isOk_ok]

theorem mapM_isOk {ε β : Type} (f : ℕ → Except ε β) :
    ∀ l : List ℕ,
      (l.mapM f).isOk = true ↔ ∀ i ∈ l, (f i).isOk = true := by
  intro l
  induction l with
  | nil =>
    constructor
    · intro _ i hi
      exact absurd hi (List.not_mem_nil i)
    · intro _
      rfl
  | cons a l ih =>
    rw [List.mapM_cons]
    cases hfa : f a with
    | error e =>
      simp only [err_bind, isOk_err, Bool.false_eq_true, false_iff]
      intro h
      have := h a (List.mem_cons_self a l)
      rw [hfa] at this
      exact Bool.false_ne_true this
    | ok b =>
      rw [ok_bind]
      cases hl : l.mapM f with
      | error e =>
        simp only [err_bind, isOk_err, Bool.false_eq_true, false_iff]
        intro h
        have : ∀ i ∈ l, (f i).isOk = true :=
          fun i hi => h i (List.mem_cons_of_mem a hi)
        rw [← ih, hl] at this
        exact Bool.false_ne_true this
      | ok bs =>
        have hok : ∀ i ∈ l, (f i).isOk = true := by
          rw [← ih, hl]
          rfl
        simp only [ok_bind, pure_eq_ok, isOk_ok, true_iff]
        intro i hi
        rcases List.mem_cons.mp hi with rfl | hi
        · rw [hfa]; rfl
        · exact hok i hi

theorem run_isOk_eq (E : List (ℕ × ℕ)) (V : List Vec3) :
    (run E V).isOk =
      ((List.range E.length).mapM
        (fun i => edgeBody V (E.getD i (0, 0)))).isOk := by
  unfold run
  cases h : (List.range E.length).mapM (fun i => edgeBody V (E.getD i (0, 0))) with
  | error f => rfl
  | ok ls => rfl

theorem run_isOk (E : List (ℕ × ℕ)) (V : List Vec3) :
    (run E V).isOk = true ↔
      ∀ e ∈ E, e.1 < V.length ∧ e.2 < V.length := by
  rw [run_isOk_eq,
    mapM_isOk (fun i => edgeBody V (E.getD i (0, 0))) (List.range E.length)]
  constructor
  · intro h e he
    obtain ⟨n, hn, rfl⟩ := List.mem_iff_getElem.mp he
    have := edgeBody_isOk.mp (h n (List.mem_range.mpr hn))
    rwa [List.getD_eq_getElem E (0, 0) hn] at this
  · intro h i hi
    rw [edgeBody_isOk]
    rw [List.mem_range] at hi
    exact h _ (List.getD_eq_getElem E (0, 0) hi ▸ List.getElem_mem hi)

end InitCurve

/-! Generic dense-matrix model shared by the weight builder, the Gram-matrix
assembler and the iteration step. -/

/-- A mathjs dense matrix of rationals, as a total function on indices;
entries that are never written stay 0 (`zeros`). -/
abbrev MatQ := ℕ → ℕ → ℚ

/-- Overwriting update, `M.set([i,j], v)`. -/
def mset (M : MatQ) (i j : ℕ) (v : ℚ) : MatQ :=
  fun a b => if a = i ∧ b = j then v else M a b

/-- Accumulating update, `M.set([i,j], M.get([i,j]) + v)`. -/
def madd (M : MatQ) (i j : ℕ) (v : ℚ) : MatQ :=
  fun a b => if a = i ∧ b = j then M a b + v else M a b

/-- The four endpoint-slot combinations `(a,b)` of the nested
`for a in 0..1 { for b in 0..1 }` loops, in source order. -/
def abPairs : List (ℕ × ℕ) := [(0, 0), (0, 1), (1, 0), (1, 1)]

/-- The iteration order of `for I over Ac { for J over Ac[I] }` as a flat list
of ordered disjoint pairs. -/
def pairList (Ac : List (List ℕ)) : List (ℕ × ℕ) :=
  (List.range Ac.length).flatMap (fun I => (Ac.getD I []).map (fun J => (I, J)))

theorem mem_pairList {Ac : List (List ℕ)} {I J : ℕ} :
    (I, J) ∈ pairList Ac ↔ I < Ac.length ∧ J ∈ Ac.getD I [] := by
  unfold pairList
  simp [List.mem_flatMap, List.mem_range]

theorem foldl_mset_keyed (f : ℕ × ℕ → ℚ) :
    ∀ (l : List (ℕ × ℕ)) (M0 : MatQ) (a b : ℕ),
      (l.foldl (fun M p => mset M p.1 p.2 (f p)) M0) a b =
        if (a, b) ∈ l then f (a, b) else M0 a b := by
  intro l
  induction l with
  | nil => intro M0 a b; simp
  | cons hd tl ih =>
    intro M0 a b
    rw [List.foldl_cons, ih]
    by_cases hmem : (a, b) ∈ tl
    · simp [hmem]
    · by_cases hhd : (a, b) = hd
      · subst hhd
        simp [hmem, mset]
      · have : ¬ (a = hd.1 ∧ b = hd.2) := by
          intro ⟨h1, h2⟩
          exact hhd (Prod.ext h1 h2)
        simp [hmem, hhd, mset, this]

theorem foldl_pair_fst {U : Type} (l : List U)
    (s1 s2 : MatQ → U → MatQ) :
    ∀ M : MatQ × MatQ,
      (l.foldl (fun W u => (s1 W.1 u, s2 W.2 u)) M).1 = l.foldl s1 M.1 := by
  induction l with
  | nil => intro M; rfl
  | cons hd tl ih => intro M; simp [List.foldl_cons, ih]

theorem foldl_pair_snd {U : Type} (l : List U)
    (s1 s2 : MatQ → U → MatQ) :
    ∀ M : MatQ × MatQ,
      (l.foldl (fun W u => (s1 W.1 u, s2 W.2 u)) M).2 = l.foldl s2 M.2 := by
  induction l with
  | nil => intro M; rfl
  | cons hd tl ih => intro M; simp [List.foldl_cons, ih]

namespace BuildWeights

/-!
Embedding of `build_weights` (file `src/build_weights.js`): the weight
matrices `W` (high-order kernel, exponent `2*sigma + 1` from the caller's
`alpha, beta`) and `W0` (low-order regularizer with hard-coded shape
`alph = 2, bet = 4`, whose cross product uses the tangent of edge `I` only).
-/

/-- Fractional Sobolev order, `sigma = (beta - 1) / alpha`. -/
def sigma (alpha beta : ℚ) : ℚ := (beta - 1) / alpha

/-- One endpoint-combination increment of the accumulator `elt1` (lines
52–61 of `build_weights.js`): distance between endpoint `a` of edge `I` and
endpoint `b` of edge `J`, raised to `-(2*sigma + 1)`, with the
near-coincidence guard that substitutes the sentinel 1000 (the guard in the
source governs both accumulators at once; it is reproduced identically in
`incrB`). -/
def incrA (alpha beta : ℚ) (E : ℕ → ℕ × ℕ) (V : ℕ → Vec3)
    (I J a b : ℕ) : ℚ :=
  if |normV (subV (V (ept (E I) a)) (V (ept (E J) b)))| < 1 / 100000000
  then 1000
  else 1 / jpow (normV (subV (V (ept (E I) a)) (V (ept (E J) b))))
    (2 * sigma alpha beta + 1)

/-- One endpoint-combination increment of the accumulator `elt2` (lines
63–69 of `build_weights.js`): the hard-coded `alph = 2, bet = 4` kernel with
the cross product taken against the tangent of edge `I`, under the same
guard. -/
def incrB (alpha beta : ℚ) (E : ℕ → ℕ × ℕ) (V T : ℕ → Vec3)
    (I J a b : ℕ) : ℚ :=
  if |normV (subV (V (ept (E I) a)) (V (ept (E J) b)))| < 1 / 100000000
  then 1000
  else
    jpow (normV (crossV (subV (V (ept (E I) a)) (V (ept (E J) b))) (T I))) 2 /
        jpow (normV (subV (V (ept (E I) a)) (V (ept (E J) b)))) 4 /
      jpow (normV (subV (V (ept (E I) a)) (V (ept (E J) b))))
        (2 * sigma alpha beta + 1)

/-- The accumulator `elt1` after the 2×2 endpoint loop for a disjoint pair
`(I, J)`. -/
def elt1 (alpha beta : ℚ) (E : ℕ → ℕ × ℕ) (V : ℕ → Vec3) (I J : ℕ) : ℚ :=
  abPairs.foldl (fun s ab => s + incrA alpha beta E V I J ab.1 ab.2) 0

/-- The accumulator `elt2` after the 2×2 endpoint loop for a disjoint pair
`(I, J)`. -/
def elt2 (alpha beta : ℚ) (E : ℕ → ℕ × ℕ) (V T : ℕ → Vec3) (I J : ℕ) : ℚ :=
  abPairs.foldl (fun s ab => s + incrB alpha beta E V T I J ab.1 ab.2) 0

/-- The value written to `W[I,J]`: `0.25 * L(I) * L(J) * elt1`. -/
def wval (alpha beta : ℚ) (E : ℕ → ℕ × ℕ) (V : ℕ → Vec3) (L : ℕ → ℚ)
    (I J : ℕ) : ℚ :=
  1 / 4 * L I * L J * elt1 alpha beta E V I J

/-- The value written to `W0[I,J]`: `0.25 * L(I) * L(J) * elt2`. -/
def w0val (alpha beta : ℚ) (E : ℕ → ℕ × ℕ) (V T : ℕ → Vec3) (L : ℕ → ℚ)
    (I J : ℕ) : ℚ :=
  1 / 4 * L I * L J * elt2 alpha beta E V T I J

/-- The double loop of `build_weights`, producing `(W, W0)`. -/
def run (alpha beta : ℚ) (E : ℕ → ℕ × ℕ) (Ac : List (List ℕ))
    (V T : ℕ → Vec3) (L : ℕ → ℚ) : MatQ × MatQ :=
  (pairList Ac).foldl
    (fun W p =>
      (mset W.1 p.1 p.2 (wval alpha beta E V L p.1 p.2),
        mset W.2 p.1 p.2 (w0val alpha beta E V T L p.1 p.2)))
    (fun _ _ => 0, fun _ _ => 0)

theorem run_fst_eq (alpha beta : ℚ) (E : ℕ → ℕ × ℕ) (Ac : List (List ℕ))
    (V T : ℕ → Vec3) (L : ℕ → ℚ) (I J : ℕ) :
    (run alpha beta E Ac V T L).1 I J =
      if (I, J) ∈ pairList Ac then wval alpha beta E V L I J else 0 := by
  have h : (run alpha beta E Ac V T L).1 =
      (pairList Ac).foldl
        (fun M p => mset M p.1 p.2 (wval alpha beta E V L p.1 p.2))
        (fun _ _ => 0) :=
    foldl_pair_fst (pairList Ac)
      (fun M p => mset M p.1 p.2 (wval alpha beta E V L p.1 p.2))
      (fun M p => mset M p.1 p.2 (w0val alpha beta E V T L p.1 p.2))
      (fun _ _ => 0, fun _ _ => 0)
  rw [h]
  exact foldl_mset_keyed (fun p => wval alpha beta E V L p.1 p.2)
    (pairList Ac) (fun _ _ => 0) I J

theorem run_snd_eq (alpha beta : ℚ) (E : ℕ → ℕ × ℕ) (Ac : List (List ℕ))
    (V T : ℕ → Vec3) (L : ℕ → ℚ) (I J : ℕ) :
    (run alpha beta E Ac V T L).2 I J =
      if (I, J) ∈ pairList Ac then w0val alpha beta E V T L I J else 0 := by
  have h : (run alpha beta E Ac V T L).2 =
      (pairList Ac).foldl
        (fun M p => mset M p.1 p.2 (w0val alpha beta E V T L p.1 p.2))
        (fun _ _ => 0) :=
    foldl_pair_snd (pairList Ac)
      (fun M p => mset M p.1 p.2 (wval alpha beta E V L p.1 p.2))
      (fun M p => mset M p.1 p.2 (w0val alpha beta E V T L p.1 p.2))
      (fun _ _ => 0, fun _ _ => 0)
  rw [h]
  exact foldl_mset_keyed (fun p => w0val alpha beta E V T L p.1 p.2)
    (pairList Ac) (fun _ _ => 0) I J

theorem subV_norm_symm (p q : Vec3) : normV (subV p q) = normV (subV q p) := by
  unfold normV sqSumV subV
  ring_nf

theorem incrA_symm (alpha beta : ℚ) (E : ℕ → ℕ × ℕ) (V : ℕ → Vec3)
    (I J a b : ℕ) :
    incrA alpha beta E V I J a b = incrA alpha beta E V J I b a := by
  unfold incrA
  rw [subV_norm_symm (V (ept (E I) a)) (V (ept (E J) b))]

theorem elt1_symm (alpha beta : ℚ) (E : ℕ → ℕ × ℕ) (V : ℕ → Vec3)
    (I J : ℕ) :
    elt1 alpha beta E V I J = elt1 alpha beta E V J I := by
  unfold elt1 abPairs
  simp only [List.foldl_cons, List.foldl_nil]
  rw [incrA_symm alpha beta E V I J 0 0,
    incrA_symm alpha beta E V I J 0 1,
    incrA_symm alpha beta E V I J 1 0,
    incrA_symm alpha beta E V I J 1 1]
  ring

theorem wval_symm (alpha beta : ℚ) (E : ℕ → ℕ × ℕ) (V : ℕ → Vec3)
    (L : ℕ → ℚ) (I J : ℕ) :
    wval alpha beta E V L I J = wval alpha beta E V L J I := by
  unfold wval
  rw [elt1_symm]
  ring

theorem elt1_nonneg (alpha beta : ℚ) (E : ℕ → ℕ × ℕ) (V : ℕ → Vec3)
    (I J : ℕ) : 0 ≤ elt1 alpha beta E V I J := by
  unfold elt1 abPairs
  simp only [List.foldl_cons, List.foldl_nil]
  have h : ∀ a b : ℕ, 0 ≤ incrA alpha beta E V I J a b := by
    intro a b
    unfold incrA
    split
    · norm_num
    · have := jpow_nonneg
        (jsqrt_nonneg (sqSumV (subV (V (ept (E I) a)) (V (ept (E J) b)))))
        (2 * sigma alpha beta + 1)
      simp only [normV]
      positivity
  have h00 := h 0 0
  have h01 := h 0 1
  have h10 := h 1 0
  have h11 := h 1 1
  linarith

theorem elt2_nonneg (alpha beta : ℚ) (E : ℕ → ℕ × ℕ) (V T : ℕ → Vec3)
    (I J : ℕ) : 0 ≤ elt2 alpha beta E V T I J := by
  unfold elt2 abPairs
  simp only [List.foldl_cons, List.foldl_nil]
  have h : ∀ a b : ℕ, 0 ≤ incrB alpha beta E V T I J a b := by
    intro a b
    unfold incrB
    split
    · norm_num
    · have h1 := jpow_nonneg
        (jsqrt_nonneg (sqSumV (subV (V (ept (E I) a)) (V (ept (E J) b)))))
        (2 * sigma alpha beta + 1)
      have h2 := jpow_nonneg
        (jsqrt_nonneg (sqSumV (subV (V (ept (E I) a)) (V (ept (E J) b))))) 4
      have h3 := jpow_nonneg
        (jsqrt_nonneg
          (sqSumV (crossV (subV (V (ept (E I) a)) (V (ept (E J) b))) (T I)))) 2
      simp only [normV]
      positivity
  have h00 := h 0 0
  have h01 := h 0 1
  have h10 := h 1 0
  have h11 := h 1 1
  linarith

theorem wval_nonneg (alpha beta : ℚ) (E : ℕ → ℕ × ℕ) (V : ℕ → Vec3)
    (L : ℕ → ℚ) (I J : ℕ) (hI : 0 ≤ L I) (hJ : 0 ≤ L J) :
    0 ≤ wval alpha beta E V L I J := by
  unfold wval
  have := elt1_nonneg alpha beta E V I J
  positivity

theorem w0val_nonneg (alpha beta : ℚ) (E : ℕ → ℕ × ℕ) (V T : ℕ → Vec3)
    (L : ℕ → ℚ) (I J : ℕ) (hI : 0 ≤ L I) (hJ : 0 ≤ L J) :
    0 ≤ w0val alpha beta E V T L I J := by
  unfold w0val
  have := elt2_nonneg alpha beta E V T I J
  positivity

end BuildWeights

/-! Quadratic-form toolkit used to state and prove positive semi-definiteness
of the assembled Gram matrix. -/

/-- The quadratic form `xᵀ M x` of the top-left `N × N` corner of `M`. -/
def QF (M : MatQ) (N : ℕ) (x : ℕ → ℚ) : ℚ :=
  ∑ i ∈ Finset.range N, ∑ j ∈ Finset.range N, x i * M i j * x j

/-- A single-entry matrix: value `v` at `(i, j)` and zero elsewhere. -/
def ind (i j : ℕ) (v : ℚ) : MatQ :=
  fun a b => if a = i ∧ b = j then v else 0

theorem ind_swap (i j : ℕ) (v : ℚ) (a b : ℕ) :
    ind j i v b a = ind i j v a b := by
  unfold ind
  exact if_congr and_comm rfl rfl

theorem QF_add (M M' : MatQ) (N : ℕ) (x : ℕ → ℚ) :
    QF (fun a b => M a b + M' a b) N x = QF M N x + QF M' N x := by
  unfold QF
  rw [← Finset.sum_add_distrib]
  refine Finset.sum_congr rfl (fun i _ => ?_)
  rw [← Finset.sum_add_distrib]
  refine Finset.sum_congr rfl (fun j _ => ?_)
  ring

theorem QF_zero (N : ℕ) (x : ℕ → ℚ) : QF (fun _ _ => 0) N x = 0 := by
  unfold QF
  simp

theorem QF_ind {i j N : ℕ} (hi : i < N) (hj : j < N) (v : ℚ) (x : ℕ → ℚ) :
    QF (ind i j v) N x = v * x i * x j := by
  unfold QF ind
  have hrow : ∀ a, ∑ b ∈ Finset.range N,
      x a * (if a = i ∧ b = j then v else 0) * x b =
      if a = i then x a * v * x j else 0 := by
    intro a
    by_cases ha : a = i
    · subst ha
      simp only [true_and, if_pos rfl]
      rw [Finset.sum_eq_single j]
      · simp
      · intro b _ hb
        simp [hb]
      · intro hj'
        exact absurd (Finset.mem_range.mpr hj) hj'
    · simp [ha]
  rw [Finset.sum_congr rfl (fun a _ => hrow a)]
  rw [Finset.sum_eq_single i]
  · rw [if_pos rfl]
    ring
  · intro a _ ha
    simp [ha]
  · intro hi'
    exact absurd (Finset.mem_range.mpr hi) hi'

theorem QF_list_sum {U : Type} (g : U → MatQ) (N : ℕ) (x : ℕ → ℚ) :
    ∀ l : List U,
      QF (fun a b => (l.map (fun u => g u a b)).sum) N x =
        (l.map (fun u => QF (g u) N x)).sum := by
  intro l
  induction l with
  | nil => simpa using QF_zero N x
  | cons hd tl ih =>
    simp only [List.map_cons, List.sum_cons]
    rw [← ih, ← QF_add]

theorem foldl_addlike {U : Type} (step : MatQ → U → MatQ) (g : U → MatQ)
    (h : ∀ M u a b, step M u a b = M a b + g u a b) :
    ∀ (l : List U) (M : MatQ) (a b : ℕ),
      (l.foldl step M) a b = M a b + (l.map (fun u => g u a b)).sum := by
  intro l
  induction l with
  | nil => intro M a b; simp
  | cons hd tl ih =>
    intro M a b
    rw [List.foldl_cons, ih]
    simp only [List.map_cons, List.sum_cons]
    rw [h M hd a b]
    ring

namespace BuildABar

/-!
Embedding of `build_A_bar` (file `src/build_A_bar.js`).  The single
`(I, J, a, b)` loop accumulates into the two independent matrices `B` and
`B0`; since the two accumulators never interact, the loop is embedded as two
structurally identical folds over the same iteration order, one per
accumulator.  `A = B + B0` and `A_bar` copies `A` into the three diagonal
blocks of a `3N × 3N` zero matrix.
-/

/-- The sign factor `pow(-1, a + b)`. -/
def sgn (a b : ℕ) : ℚ := (-1 : ℚ) ^ (a + b)

/-- The four `B` updates of one `(I, J, a, b)` iteration (lines 62–88 of
`build_A_bar.js`), in source order. -/
def bStep (E : ℕ → ℕ × ℕ) (T : ℕ → Vec3) (L : ℕ → ℚ) (W : MatQ) (I J : ℕ)
    (M : MatQ) (ab : ℕ × ℕ) : MatQ :=
  madd (madd (madd (madd M
    (ept (E I) ab.1) (ept (E I) ab.2)
      (sgn ab.1 ab.2 * W I J / L I ^ 2))
    (ept (E J) ab.1) (ept (E J) ab.2)
      (sgn ab.1 ab.2 * W I J / L J ^ 2))
    (ept (E I) ab.1) (ept (E J) ab.2)
      (-(sgn ab.1 ab.2 * W I J * dotV (T I) (T J) / (L I * L J))))
    (ept (E J) ab.1) (ept (E I) ab.2)
      (-(sgn ab.1 ab.2 * W I J * dotV (T I) (T J) / (L J * L I)))

/-- The four `B0` updates of one `(I, J, a, b)` iteration (lines 90–99 of
`build_A_bar.js`): `±0.25 * W0[I,J]`, plus on the two diagonal-block targets,
minus on the two cross targets, with no sign factor. -/
def b0Step (E : ℕ → ℕ × ℕ) (W0 : MatQ) (I J : ℕ)
    (M : MatQ) (ab : ℕ × ℕ) : MatQ :=
  madd (madd (madd (madd M
    (ept (E I) ab.1) (ept (E I) ab.2) (1 / 4 * W0 I J))
    (ept (E J) ab.1) (ept (E J) ab.2) (1 / 4 * W0 I J))
    (ept (E I) ab.1) (ept (E J) ab.2) (-(1 / 4 * W0 I J)))
    (ept (E J) ab.1) (ept (E I) ab.2) (-(1 / 4 * W0 I J))

/-- The matrix `B` after the full loop. -/
def buildB (E : ℕ → ℕ × ℕ) (T : ℕ → Vec3) (L : ℕ → ℚ) (W : MatQ)
    (Ac : List (List ℕ)) : MatQ :=
  (pairList Ac).foldl (fun M p => abPairs.foldl (bStep E T L W p.1 p.2) M)
    (fun _ _ => 0)

/-- The matrix `B0` after the full loop. -/
def buildB0 (E : ℕ → ℕ × ℕ) (W0 : MatQ) (Ac : List (List ℕ)) : MatQ :=
  (pairList Ac).foldl (fun M p => abPairs.foldl (b0Step E W0 p.1 p.2) M)
    (fun _ _ => 0)

/-- The matrix `A = Matrix.add(B, B0)`. -/
def buildA (E : ℕ → ℕ × ℕ) (T : ℕ → Vec3) (L : ℕ → ℚ) (W W0 : MatQ)
    (Ac : List (List ℕ)) : MatQ :=
  fun i j => buildB E T L W Ac i j + buildB0 E W0 Ac i j

/-- The per-update increment matrix of `bStep`, as a sum of four single-entry
matrices. -/
def dB (E : ℕ → ℕ × ℕ) (T : ℕ → Vec3) (L : ℕ → ℚ) (W : MatQ) (I J : ℕ)
    (ab : ℕ × ℕ) : MatQ :=
  fun x y =>
    ind (ept (E I) ab.1) (ept (E I) ab.2)
      (sgn ab.1 ab.2 * W I J / L I ^ 2) x y +
    ind (ept (E J) ab.1) (ept (E J) ab.2)
      (sgn ab.1 ab.2 * W I J / L J ^ 2) x y +
    ind (ept (E I) ab.1) (ept (E J) ab.2)
      (-(sgn ab.1 ab.2 * W I J * dotV (T I) (T J) / (L I * L J))) x y +
    ind (ept (E J) ab.1) (ept (E I) ab.2)
      (-(sgn ab.1 ab.2 * W I J * dotV (T I) (T J) / (L J * L I))) x y

/-- The per-update increment matrix of `b0Step`. -/
def dB0 (E : ℕ → ℕ × ℕ) (W0 : MatQ) (I J : ℕ) (ab : ℕ × ℕ) : MatQ :=
  fun x y =>
    ind (ept (E I) ab.1) (ept (E I) ab.2) (1 / 4 * W0 I J) x y +
    ind (ept (E J) ab.1) (ept (E J) ab.2) (1 / 4 * W0 I J) x y +
    ind (ept (E I) ab.1) (ept (E J) ab.2) (-(1 / 4 * W0 I J)) x y +
    ind (ept (E J) ab.1) (ept (E I) ab.2) (-(1 / 4 * W0 I J)) x y

/-- The increment of one whole 2×2 endpoint loop for a pair `(I, J)`, `B`
part. -/
def dPairB (E : ℕ → ℕ × ℕ) (T : ℕ → Vec3) (L : ℕ → ℚ) (W : MatQ)
    (I J : ℕ) : MatQ :=
  fun x y => (abPairs.map (fun ab => dB E T L W I J ab x y)).sum

/-- The increment of one whole 2×2 endpoint loop for a pair `(I, J)`, `B0`
part. -/
def dPairB0 (E : ℕ → ℕ × ℕ) (W0 : MatQ) (I J : ℕ) : MatQ :=
  fun x y => (abPairs.map (fun ab => dB0 E W0 I J ab x y)).sum

theorem bStep_entry (E : ℕ → ℕ × ℕ) (T : ℕ → Vec3) (L : ℕ → ℚ) (W : MatQ)
    (I J : ℕ) (M : MatQ) (ab : ℕ × ℕ) (x y : ℕ) :
    bStep E T L W I J M ab x y = M x y + dB E T L W I J ab x y := by
  simp only [bStep, dB, madd, ind]
  split_ifs <;> ring

theorem b0Step_entry (E : ℕ → ℕ × ℕ) (W0 : MatQ)
    (I J : ℕ) (M : MatQ) (ab : ℕ × ℕ) (x y : ℕ) :
    b0Step E W0 I J M ab x y = M x y + dB0 E W0 I J ab x y := by
  simp only [b0Step, dB0, madd, ind]
  split_ifs <;> ring

theorem buildB_entry (E : ℕ → ℕ × ℕ) (T : ℕ → Vec3) (L : ℕ → ℚ) (W : MatQ)
    (Ac : List (List ℕ)) (x y : ℕ) :
    buildB E T L W Ac x y =
      ((pairList Ac).map (fun p => dPairB E T L W p.1 p.2 x y)).sum := by
  unfold buildB
  rw [foldl_addlike (fun M p => abPairs.foldl (bStep E T L W p.1 p.2) M)
    (fun p => dPairB E T L W p.1 p.2)
    (fun M p a b => foldl_addlike (bStep E T L W p.1 p.2)
      (dB E T L W p.1 p.2) (bStep_entry E T L W p.1 p.2) abPairs M a b)
    (pairList Ac) (fun _ _ => 0) x y]
  ring

theorem buildB0_entry (E : ℕ → ℕ × ℕ) (W0 : MatQ)
    (Ac : List (List ℕ)) (x y : ℕ) :
    buildB0 E W0 Ac x y =
      ((pairList Ac).map (fun p => dPairB0 E W0 p.1 p.2 x y)).sum := by
  unfold buildB0
  rw [foldl_addlike (fun M p => abPairs.foldl (b0Step E W0 p.1 p.2) M)
    (fun p => dPairB0 E W0 p.1 p.2)
    (fun M p a b => foldl_addlike (b0Step E W0 p.1 p.2)
      (dB0 E W0 p.1 p.2) (b0Step_entry E W0 p.1 p.2) abPairs M a b)
    (pairList Ac) (fun _ _ => 0) x y]
  ring

theorem sgn_comm (a b : ℕ) : sgn b a = sgn a b := by
  unfold sgn
  rw [Nat.add_comm]

theorem dB_transpose (E : ℕ → ℕ × ℕ) (T : ℕ → Vec3) (L : ℕ → ℚ) (W : MatQ)
    (I J a b x y : ℕ) :
    dB E T L W I J (b, a) y x = dB E T L W I J (a, b) x y := by
  unfold dB
  simp only [sgn_comm a b]
  rw [ind_swap (ept (E I) a) (ept (E I) b) (sgn a b * W I J / L I ^ 2) x y]
  rw [ind_swap (ept (E J) a) (ept (E J) b) (sgn a b * W I J / L J ^ 2) x y]
  rw [ind_swap (ept (E J) a) (ept (E I) b)
    (-(sgn a b * W I J * dotV (T I) (T J) / (L I * L J))) x y]
  rw [ind_swap (ept (E I) a) (ept (E J) b)
    (-(sgn a b * W I J * dotV (T I) (T J) / (L J * L I))) x y]
  rw [show -(sgn a b * W I J * dotV (T I) (T J) / (L I * L J)) =
    -(sgn a b * W I J * dotV (T I) (T J) / (L J * L I)) from by ring]
  ring

theorem dB0_transpose (E : ℕ → ℕ × ℕ) (W0 : MatQ) (I J a b x y : ℕ) :
    dB0 E W0 I J (b, a) y x = dB0 E W0 I J (a, b) x y := by
  unfold dB0
  rw [ind_swap (ept (E I) a) (ept (E I) b) (1 / 4 * W0 I J) x y]
  rw [ind_swap (ept (E J) a) (ept (E J) b) (1 / 4 * W0 I J) x y]
  rw [ind_swap (ept (E J) a) (ept (E I) b) (-(1 / 4 * W0 I J)) x y]
  rw [ind_swap (ept (E I) a) (ept (E J) b) (-(1 / 4 * W0 I J)) x y]
  ring

theorem dPairB_symm (E : ℕ → ℕ × ℕ) (T : ℕ → Vec3) (L : ℕ → ℚ) (W : MatQ)
    (I J x y : ℕ) :
    dPairB E T L W I J x y = dPairB E T L W I J y x := by
  unfold dPairB abPairs
  simp only [List.map_cons, List.map_nil, List.sum_cons, List.sum_nil]
  rw [show ((0, 0) : ℕ × ℕ) = ((0 : ℕ), (0 : ℕ)) from rfl]
  rw [dB_transpose E T L W I J 0 0 x y, dB_transpose E T L W I J 1 0 x y,
    dB_transpose E T L W I J 0 1 x y, dB_transpose E T L W I J 1 1 x y]
  ring

theorem dPairB0_symm (E : ℕ → ℕ × ℕ) (W0 : MatQ) (I J x y : ℕ) :
    dPairB0 E W0 I J x y = dPairB0 E W0 I J y x := by
  unfold dPairB0 abPairs
  simp only [List.map_cons, List.map_nil, List.sum_cons, List.sum_nil]
  rw [dB0_transpose E W0 I J 0 0 x y, dB0_transpose E W0 I J 1 0 x y,
    dB0_transpose E W0 I J 0 1 x y, dB0_transpose E W0 I J 1 1 x y]
  ring

theorem buildA_symm (E : ℕ → ℕ × ℕ) (T : ℕ → Vec3) (L : ℕ → ℚ) (W W0 : MatQ)
    (Ac : List (List ℕ)) (x y : ℕ) :
    buildA E T L W W0 Ac x y = buildA E T L W W0 Ac y x := by
  unfold buildA
  rw [buildB_entry, buildB_entry, buildB0_entry, buildB0_entry]
  have hB : List.map (fun p : ℕ × ℕ => dPairB E T L W p.1 p.2 x y)
      (pairList Ac) =
      List.map (fun p : ℕ × ℕ => dPairB E T L W p.1 p.2 y x) (pairList Ac) :=
    List.map_congr_left (fun p _ => dPairB_symm E T L W p.1 p.2 x y)
  have hB0 : List.map (fun p : ℕ × ℕ => dPairB0 E W0 p.1 p.2 x y)
      (pairList Ac) =
      List.map (fun p : ℕ × ℕ => dPairB0 E W0 p.1 p.2 y x) (pairList Ac) :=
    List.map_congr_left (fun p _ => dPairB0_symm E W0 p.1 p.2 x y)
  rw [hB, hB0]

theorem cauchy_schwarz_vec3 (a b : Vec3) :
    (dotV a b) ^ 2 ≤ dotV a a * dotV b b := by
  unfold dotV
  nlinarith [sq_nonneg (a.x * b.y - a.y * b.x), sq_nonneg (a.x * b.z - a.z * b.x),
    sq_nonneg (a.y * b.z - a.z * b.y)]

theorem dotV_self_nonneg (a : Vec3) : 0 ≤ dotV a a := by
  unfold dotV
  nlinarith [sq_nonneg a.x, sq_nonneg a.y, sq_nonneg a.z]

theorem abs_dot_le_one {a b : Vec3} (ha : dotV a a ≤ 1) (hb : dotV b b ≤ 1) :
    -1 ≤ dotV a b ∧ dotV a b ≤ 1 := by
  have hcs := cauchy_schwarz_vec3 a b
  have h1 : dotV a a * dotV b b ≤ 1 := by
    nlinarith [dotV_self_nonneg a, dotV_self_nonneg b]
  constructor
  · nlinarith [sq_nonneg (dotV a b + 1)]
  · nlinarith [sq_nonneg (dotV a b - 1)]

theorem pair_form_nonneg (w w0 c u v s1 s2 : ℚ) (hw : 0 ≤ w) (hw0 : 0 ≤ w0)
    (hc1 : -1 ≤ c) (hc2 : c ≤ 1) :
    0 ≤ w * u ^ 2 + w * v ^ 2 - 2 * w * c * u * v +
      1 / 4 * w0 * (s1 - s2) ^ 2 := by
  have key : w * u ^ 2 + w * v ^ 2 - 2 * w * c * u * v =
      w * (1 - c) * (u + v) ^ 2 / 2 + w * (1 + c) * (u - v) ^ 2 / 2 := by
    ring
  have h1 : 0 ≤ w * (1 - c) * (u + v) ^ 2 / 2 := by
    have hcpos : (0 : ℚ) ≤ 1 - c := by linarith
    exact div_nonneg
      (mul_nonneg (mul_nonneg hw hcpos) (sq_nonneg (u + v))) (by norm_num)
  have h2 : 0 ≤ w * (1 + c) * (u - v) ^ 2 / 2 := by
    have hcpos : (0 : ℚ) ≤ 1 + c := by linarith
    exact div_nonneg
      (mul_nonneg (mul_nonneg hw hcpos) (sq_nonneg (u - v))) (by norm_num)
  nlinarith [sq_nonneg (s1 - s2)]

theorem ept_lt {e : ℕ × ℕ} {N : ℕ} (h1 : e.1 < N) (h2 : e.2 < N) (a : ℕ) :
    ept e a < N := by
  unfold ept
  split
  · exact h1
  · exact h2

theorem QF_ind4 {N : ℕ} (i1 j1 i2 j2 i3 j3 i4 j4 : ℕ) (v1 v2 v3 v4 : ℚ)
    (x : ℕ → ℚ) (h1 : i1 < N) (h1' : j1 < N) (h2 : i2 < N) (h2' : j2 < N)
    (h3 : i3 < N) (h3' : j3 < N) (h4 : i4 < N) (h4' : j4 < N) :
    QF (fun a b => ind i1 j1 v1 a b + ind i2 j2 v2 a b + ind i3 j3 v3 a b +
      ind i4 j4 v4 a b) N x =
      v1 * x i1 * x j1 + v2 * x i2 * x j2 + v3 * x i3 * x j3 +
        v4 * x i4 * x j4 := by
  rw [QF_add (fun a b => ind i1 j1 v1 a b + ind i2 j2 v2 a b + ind i3 j3 v3 a b)
    (ind i4 j4 v4) N x]
  rw [QF_add (fun a b => ind i1 j1 v1 a b + ind i2 j2 v2 a b)
    (ind i3 j3 v3) N x]
  rw [QF_add (ind i1 j1 v1) (ind i2 j2 v2) N x]
  rw [QF_ind h1 h1' v1 x, QF_ind h2 h2' v2 x, QF_ind h3 h3' v3 x,
    QF_ind h4 h4' v4 x]

theorem QF_dB {N : ℕ} (E : ℕ → ℕ × ℕ) (T : ℕ → Vec3) (L : ℕ → ℚ) (W : MatQ)
    (I J a b : ℕ) (x : ℕ → ℚ) (hI1 : (E I).1 < N) (hI2 : (E I).2 < N)
    (hJ1 : (E J).1 < N) (hJ2 : (E J).2 < N) :
    QF (dB E T L W I J (a, b)) N x =
      sgn a b * W I J / L I ^ 2 * x (ept (E I) a) * x (ept (E I) b) +
      sgn a b * W I J / L J ^ 2 * x (ept (E J) a) * x (ept (E J) b) +
      -(sgn a b * W I J * dotV (T I) (T J) / (L I * L J)) *
        x (ept (E I) a) * x (ept (E J) b) +
      -(sgn a b * W I J * dotV (T I) (T J) / (L J * L I)) *
        x (ept (E J) a) * x (ept (E I) b) := by
  exact QF_ind4 _ _ _ _ _ _ _ _ _ _ _ _ x
    (ept_lt hI1 hI2 a) (ept_lt hI1 hI2 b) (ept_lt hJ1 hJ2 a) (ept_lt hJ1 hJ2 b)
    (ept_lt hI1 hI2 a) (ept_lt hJ1 hJ2 b) (ept_lt hJ1 hJ2 a) (ept_lt hI1 hI2 b)

theorem QF_dB0 {N : ℕ} (E : ℕ → ℕ × ℕ) (W0 : MatQ)
    (I J a b : ℕ) (x : ℕ → ℚ) (hI1 : (E I).1 < N) (hI2 : (E I).2 < N)
    (hJ1 : (E J).1 < N) (hJ2 : (E J).2 < N) :
    QF (dB0 E W0 I J (a, b)) N x =
      1 / 4 * W0 I J * x (ept (E I) a) * x (ept (E I) b) +
      1 / 4 * W0 I J * x (ept (E J) a) * x (ept (E J) b) +
      -(1 / 4 * W0 I J) * x (ept (E I) a) * x (ept (E J) b) +
      -(1 / 4 * W0 I J) * x (ept (E J) a) * x (ept (E I) b) := by
  exact QF_ind4 _ _ _ _ _ _ _ _ _ _ _ _ x
    (ept_lt hI1 hI2 a) (ept_lt hI1 hI2 b) (ept_lt hJ1 hJ2 a) (ept_lt hJ1 hJ2 b)
    (ept_lt hI1 hI2 a) (ept_lt hJ1 hJ2 b) (ept_lt hJ1 hJ2 a) (ept_lt hI1 hI2 b)

theorem QF_dPairB {N : ℕ} (E : ℕ → ℕ × ℕ) (T : ℕ → Vec3) (L : ℕ → ℚ)
    (W : MatQ) (I J : ℕ) (x : ℕ → ℚ) (hI1 : (E I).1 < N) (hI2 : (E I).2 < N)
    (hJ1 : (E J).1 < N) (hJ2 : (E J).2 < N) :
    QF (dPairB E T L W I J) N x =
      W I J * ((x (E I).1 - x (E I).2) / L I) ^ 2 +
      W I J * ((x (E J).1 - x (E J).2) / L J) ^ 2 -
      2 * W I J * dotV (T I) (T J) * ((x (E I).1 - x (E I).2) / L I) *
        ((x (E J).1 - x (E J).2) / L J) := by
  rw [show QF (dPairB E T L W I J) N x =
      ((abPairs.map (fun ab => QF (dB E T L W I J ab) N x)).sum) from
    QF_list_sum (dB E T L W I J) N x abPairs]
  unfold abPairs
  simp only [List.map_cons, List.map_nil, List.sum_cons, List.sum_nil]
  rw [QF_dB E T L W I J 0 0 x hI1 hI2 hJ1 hJ2,
    QF_dB E T L W I J 0 1 x hI1 hI2 hJ1 hJ2,
    QF_dB E T L W I J 1 0 x hI1 hI2 hJ1 hJ2,
    QF_dB E T L W I J 1 1 x hI1 hI2 hJ1 hJ2]
  have hs00 : sgn 0 0 = 1 := by norm_num [sgn]
  have hs01 : sgn 0 1 = -1 := by norm_num [sgn]
  have hs10 : sgn 1 0 = -1 := by norm_num [sgn]
  have hs11 : sgn 1 1 = 1 := by norm_num [sgn]
  have he0 : ∀ e : ℕ × ℕ, ept e 0 = e.1 := fun e => rfl
  have he1 : ∀ e : ℕ × ℕ, ept e 1 = e.2 := fun e => rfl
  rw [hs00, hs01, hs10, hs11, he0 (E I), he1 (E I), he0 (E J), he1 (E J)]
  ring

theorem QF_dPairB0 {N : ℕ} (E : ℕ → ℕ × ℕ) (W0 : MatQ) (I J : ℕ)
    (x : ℕ → ℚ) (hI1 : (E I).1 < N) (hI2 : (E I).2 < N)
    (hJ1 : (E J).1 < N) (hJ2 : (E J).2 < N) :
    QF (dPairB0 E W0 I J) N x =
      1 / 4 * W0 I J *
        ((x (E I).1 + x (E I).2) - (x (E J).1 + x (E J).2)) ^ 2 := by
  rw [show QF (dPairB0 E W0 I J) N x =
      ((abPairs.map (fun ab => QF (dB0 E W0 I J ab) N x)).sum) from
    QF_list_sum (dB0 E W0 I J) N x abPairs]
  unfold abPairs
  simp only [List.map_cons, List.map_nil, List.sum_cons, List.sum_nil]
  rw [QF_dB0 E W0 I J 0 0 x hI1 hI2 hJ1 hJ2,
    QF_dB0 E W0 I J 0 1 x hI1 hI2 hJ1 hJ2,
    QF_dB0 E W0 I J 1 0 x hI1 hI2 hJ1 hJ2,
    QF_dB0 E W0 I J 1 1 x hI1 hI2 hJ1 hJ2]
  have he0 : ∀ e : ℕ × ℕ, ept e 0 = e.1 := fun e => rfl
  have he1 : ∀ e : ℕ × ℕ, ept e 1 = e.2 := fun e => rfl
  rw [he0 (E I), he1 (E I), he0 (E J), he1 (E J)]
  ring

theorem map_sum_add {U : Type} (f g : U → ℚ) :
    ∀ l : List U, (l.map f).sum + (l.map g).sum =
      (l.map (fun u => f u + g u)).sum := by
  intro l
  induction l with
  | nil => simp
  | cons hd tl ih =>
    simp only [List.map_cons, List.sum_cons]
    rw [← ih]
    ring

theorem QF_buildA_nonneg {N : ℕ} (E : ℕ → ℕ × ℕ) (T : ℕ → Vec3) (L : ℕ → ℚ)
    (W W0 : MatQ) (Ac : List (List ℕ)) (x : ℕ → ℚ)
    (hE : ∀ p ∈ pairList Ac, (E p.1).1 < N ∧ (E p.1).2 < N ∧
      (E p.2).1 < N ∧ (E p.2).2 < N)
    (hW : ∀ p ∈ pairList Ac, 0 ≤ W p.1 p.2)
    (hW0 : ∀ p ∈ pairList Ac, 0 ≤ W0 p.1 p.2)
    (hT : ∀ I, dotV (T I) (T I) ≤ 1) :
    0 ≤ QF (buildA E T L W W0 Ac) N x := by
  have hBfun : buildA E T L W W0 Ac = fun a b =>
      ((pairList Ac).map (fun p => dPairB E T L W p.1 p.2 a b)).sum +
      ((pairList Ac).map (fun p => dPairB0 E W0 p.1 p.2 a b)).sum := by
    funext a b
    unfold buildA
    rw [buildB_entry, buildB0_entry]
  rw [hBfun]
  rw [QF_add (fun a b => ((pairList Ac).map
      (fun p => dPairB E T L W p.1 p.2 a b)).sum)
    (fun a b => ((pairList Ac).map
      (fun p => dPairB0 E W0 p.1 p.2 a b)).sum) N x]
  rw [QF_list_sum (fun p : ℕ × ℕ => dPairB E T L W p.1 p.2) N x (pairList Ac)]
  rw [QF_list_sum (fun p : ℕ × ℕ => dPairB0 E W0 p.1 p.2) N x (pairList Ac)]
  rw [map_sum_add (fun p : ℕ × ℕ => QF (dPairB E T L W p.1 p.2) N x)
    (fun p : ℕ × ℕ => QF (dPairB0 E W0 p.1 p.2) N x) (pairList Ac)]
  apply List.sum_nonneg
  intro q hq
  obtain ⟨p, hp, rfl⟩ := List.mem_map.mp hq
  obtain ⟨e1, e2, e3, e4⟩ := hE p hp
  rw [QF_dPairB E T L W p.1 p.2 x e1 e2 e3 e4,
    QF_dPairB0 E W0 p.1 p.2 x e1 e2 e3 e4]
  obtain ⟨hc1, hc2⟩ := abs_dot_le_one (hT p.1) (hT p.2)
  exact pair_form_nonneg (W p.1 p.2) (W0 p.1 p.2) (dotV (T p.1) (T p.2))
    ((x (E p.1).1 - x (E p.1).2) / L p.1) ((x (E p.2).1 - x (E p.2).2) / L p.2)
    (x (E p.1).1 + x (E p.1).2) (x (E p.2).1 + x (E p.2).2)
    (hW p hp) (hW0 p hp) hc1 hc2

/-- Iteration order of the block-copy double loop (`for i < n { for j < n }`)
of `build_A_bar`. -/
def gridList (n : ℕ) : List (ℕ × ℕ) :=
  (List.range n).flatMap (fun i => (List.range n).map (fun j => (i, j)))

theorem mem_gridList {n i j : ℕ} :
    (i, j) ∈ gridList n ↔ i < n ∧ j < n := by
  unfold gridList
  simp [List.mem_flatMap, List.mem_range]

/-- The final assembly of `build_A_bar` (lines 105–120): `A = B + B0` is
copied into the three diagonal blocks of a `3N × 3N` zero matrix. -/
def run (pt_num : ℕ) (E : ℕ → ℕ × ℕ) (Ac : List (List ℕ)) (T : ℕ → Vec3)
    (L : ℕ → ℚ) (W W0 : MatQ) : MatQ :=
  (gridList pt_num).foldl
    (fun M p =>
      mset (mset (mset M p.1 p.2 (buildA E T L W W0 Ac p.1 p.2))
          (p.1 + pt_num) (p.2 + pt_num) (buildA E T L W W0 Ac p.1 p.2))
        (p.1 + 2 * pt_num) (p.2 + 2 * pt_num) (buildA E T L W W0 Ac p.1 p.2))
    (fun _ _ => 0)

/-- Which cells the block-copy loop writes for a grid point `p`. -/
def hits (n : ℕ) (p : ℕ × ℕ) (a b : ℕ) : Prop :=
  (a = p.1 ∧ b = p.2) ∨ (a = p.1 + n ∧ b = p.2 + n) ∨
    (a = p.1 + 2 * n ∧ b = p.2 + 2 * n)

instance hits_dec (n : ℕ) (p : ℕ × ℕ) (a b : ℕ) : Decidable (hits n p a b) := by
  unfold hits
  infer_instance

theorem foldl_mset3_keyed (n : ℕ) (f : ℕ → ℕ → ℚ) :
    ∀ l : List (ℕ × ℕ), (∀ p ∈ l, p.1 < n ∧ p.2 < n) →
      ∀ (M : MatQ) (a b : ℕ),
        (l.foldl
          (fun M p => mset (mset (mset M p.1 p.2 (f p.1 p.2))
              (p.1 + n) (p.2 + n) (f p.1 p.2))
            (p.1 + 2 * n) (p.2 + 2 * n) (f p.1 p.2)) M) a b =
          if ∃ p ∈ l, hits n p a b then f (a % n) (b % n) else M a b := by
  intro l
  induction l with
  | nil =>
    intro _ M a b
    simp
  | cons hd tl ih =>
    intro hbound M a b
    have hhd := hbound hd (List.mem_cons_self hd tl)
    have htl : ∀ p ∈ tl, p.1 < n ∧ p.2 < n :=
      fun p hp => hbound p (List.mem_cons_of_mem hd hp)
    rw [List.foldl_cons, ih htl]
    by_cases hex : ∃ p ∈ tl, hits n p a b
    · rw [if_pos hex]
      obtain ⟨p, hp, h⟩ := hex
      rw [if_pos ⟨p, List.mem_cons_of_mem hd hp, h⟩]
    · rw [if_neg hex]
      by_cases h1 : a = hd.1 ∧ b = hd.2
      · have hval : (mset (mset (mset M hd.1 hd.2 (f hd.1 hd.2))
            (hd.1 + n) (hd.2 + n) (f hd.1 hd.2))
            (hd.1 + 2 * n) (hd.2 + 2 * n) (f hd.1 hd.2)) a b = f hd.1 hd.2 := by
          have hne2 : ¬ (a = hd.1 + 2 * n ∧ b = hd.2 + 2 * n) := by
            intro hcon
            omega
          have hne1 : ¬ (a = hd.1 + n ∧ b = hd.2 + n) := by
            intro hcon
            omega
          simp [mset, hne2, hne1, h1]
        rw [hval, if_pos ⟨hd, List.mem_cons_self hd tl, Or.inl h1⟩]
        rw [h1.1, h1.2, Nat.mod_eq_of_lt hhd.1, Nat.mod_eq_of_lt hhd.2]
      · by_cases h2 : a = hd.1 + n ∧ b = hd.2 + n
        · have hval : (mset (mset (mset M hd.1 hd.2 (f hd.1 hd.2))
              (hd.1 + n) (hd.2 + n) (f hd.1 hd.2))
              (hd.1 + 2 * n) (hd.2 + 2 * n) (f hd.1 hd.2)) a b =
                f hd.1 hd.2 := by
            have hne2 : ¬ (a = hd.1 + 2 * n ∧ b = hd.2 + 2 * n) := by
              intro hcon
              omega
            simp [mset, hne2, h2]
          rw [hval, if_pos ⟨hd, List.mem_cons_self hd tl, Or.inr (Or.inl h2)⟩]
          have ha : a % n = hd.1 := by
            rw [h2.1, Nat.add_mod_right, Nat.mod_eq_of_lt hhd.1]
          have hb : b % n = hd.2 := by
            rw [h2.2, Nat.add_mod_right, Nat.mod_eq_of_lt hhd.2]
          rw [ha, hb]
        · by_cases h3 : a = hd.1 + 2 * n ∧ b = hd.2 + 2 * n
          · have hval : (mset (mset (mset M hd.1 hd.2 (f hd.1 hd.2))
                (hd.1 + n) (hd.2 + n) (f hd.1 hd.2))
                (hd.1 + 2 * n) (hd.2 + 2 * n) (f hd.1 hd.2)) a b =
                  f hd.1 hd.2 := by
              simp [mset, h3]
            rw [hval,
              if_pos ⟨hd, List.mem_cons_self hd tl, Or.inr (Or.inr h3)⟩]
            have ha : a % n = hd.1 := by
              rw [h3.1, Nat.add_mul_mod_self_right, Nat.mod_eq_of_lt hhd.1]
            have hb : b % n = hd.2 := by
              rw [h3.2, Nat.add_mul_mod_self_right, Nat.mod_eq_of_lt hhd.2]
            rw [ha, hb]
          · have hval : (mset (mset (mset M hd.1 hd.2 (f hd.1 hd.2))
                (hd.1 + n) (hd.2 + n) (f hd.1 hd.2))
                (hd.1 + 2 * n) (hd.2 + 2 * n) (f hd.1 hd.2)) a b = M a b := by
              simp [mset, h1, h2, h3]
            rw [hval]
            have : ¬ ∃ p ∈ hd :: tl, hits n p a b := by
              rintro ⟨p, hp, h⟩
              rcases List.mem_cons.mp hp with rfl | hp
              · exact absurd h (by
                  unfold hits
                  push_neg
                  refine ⟨fun ha hb => ?_, fun ha hb => ?_, fun ha hb => ?_⟩
                  · exact absurd ⟨ha, hb⟩ h1
                  · exact absurd ⟨ha, hb⟩ h2
                  · exact absurd ⟨ha, hb⟩ h3)
              · exact hex ⟨p, hp, h⟩
            rw [if_neg this]

theorem hit_iff (n a b : ℕ) :
    (∃ p ∈ gridList n, hits n p a b) ↔
      a < 3 * n ∧ b < 3 * n ∧ a / n = b / n := by
  constructor
  · rintro ⟨p, hp, h⟩
    obtain ⟨hp1, hp2⟩ := mem_gridList.mp (show (p.1, p.2) ∈ gridList n from hp)
    have hn : 0 < n := by omega
    rcases h with ⟨ha, hb⟩ | ⟨ha, hb⟩ | ⟨ha, hb⟩
    · subst ha
      subst hb
      refine ⟨by omega, by omega, ?_⟩
      rw [Nat.div_eq_of_lt hp1, Nat.div_eq_of_lt hp2]
    · subst ha
      subst hb
      refine ⟨by omega, by omega, ?_⟩
      rw [Nat.add_div_right _ hn, Nat.add_div_right _ hn,
        Nat.div_eq_of_lt hp1, Nat.div_eq_of_lt hp2]
    · subst ha
      subst hb
      refine ⟨by omega, by omega, ?_⟩
      rw [show 2 * n = n + n from by ring, ← Nat.add_assoc, ← Nat.add_assoc,
        Nat.add_div_right _ hn, Nat.add_div_right _ hn,
        Nat.add_div_right _ hn, Nat.add_div_right _ hn,
        Nat.div_eq_of_lt hp1, Nat.div_eq_of_lt hp2]
  · rintro ⟨ha3, hb3, hdiv⟩
    have hn : 0 < n := by omega
    have hk : a / n < 3 := (Nat.div_lt_iff_lt_mul hn).mpr (by omega)
    have hma : a % n < n := Nat.mod_lt a hn
    have hmb : b % n < n := Nat.mod_lt b hn
    have hda : n * (a / n) + a % n = a := Nat.div_add_mod a n
    have hdb : n * (b / n) + b % n = b := Nat.div_add_mod b n
    refine ⟨(a % n, b % n), mem_gridList.mpr ⟨hma, hmb⟩, ?_⟩
    rw [← hdiv] at hdb
    have hk3 : a / n = 0 ∨ a / n = 1 ∨ a / n = 2 := by
      revert hk
      generalize a / n = k
      intro hk
      omega
    unfold hits
    rcases hk3 with hk0 | hk1 | hk2
    · rw [hk0] at hda hdb
      left
      constructor
      · omega
      · omega
    · rw [hk1] at hda hdb
      right
      left
      constructor
      · omega
      · omega
    · rw [hk2] at hda hdb
      right
      right
      constructor
      · omega
      · omega

theorem run_entry (n : ℕ) (E : ℕ → ℕ × ℕ) (Ac : List (List ℕ)) (T : ℕ → Vec3)
    (L : ℕ → ℚ) (W W0 : MatQ) (a b : ℕ) :
    run n E Ac T L W W0 a b =
      if a < 3 * n ∧ b < 3 * n ∧ a / n = b / n then
        buildA E T L W W0 Ac (a % n) (b % n)
      else 0 := by
  unfold run
  rw [foldl_mset3_keyed n (buildA E T L W W0 Ac) (gridList n)
    (fun p hp => mem_gridList.mp (show (p.1, p.2) ∈ gridList n from hp))
    (fun _ _ => 0) a b]
  by_cases h : ∃ p ∈ gridList n, hits n p a b
  · rw [if_pos h, if_pos ((hit_iff n a b).mp h)]
  · rw [if_neg h, if_neg (fun hc => h ((hit_iff n a b).mpr hc))]

theorem run_symm (n : ℕ) (E : ℕ → ℕ × ℕ) (Ac : List (List ℕ)) (T : ℕ → Vec3)
    (L : ℕ → ℚ) (W W0 : MatQ) (a b : ℕ) :
    run n E Ac T L W W0 a b = run n E Ac T L W W0 b a := by
  rw [run_entry, run_entry]
  by_cases h : a < 3 * n ∧ b < 3 * n ∧ a / n = b / n
  · rw [if_pos h, if_pos ⟨h.2.1, h.1, h.2.2.symm⟩, buildA_symm]
  · rw [if_neg h, if_neg (fun hc => h ⟨hc.2.1, hc.1, hc.2.2.symm⟩)]

theorem div_lt_self_eq_zero {i n : ℕ} (hi : i < n) : i / n = 0 :=
  Nat.div_eq_of_lt hi

theorem add_div_block1 {i n : ℕ} (hi : i < n) : (n + i) / n = 1 := by
  have hn : 0 < n := by omega
  rw [Nat.add_comm n i, Nat.add_div_right _ hn, Nat.div_eq_of_lt hi]

theorem add_div_block2 {i n : ℕ} (hi : i < n) : (n + (n + i)) / n = 2 := by
  have hn : 0 < n := by omega
  rw [show n + (n + i) = i + 2 * n from by omega,
    Nat.add_mul_div_right _ _ hn, Nat.div_eq_of_lt hi]

theorem add_mod_block1 {i n : ℕ} (hi : i < n) : (n + i) % n = i := by
  rw [Nat.add_comm n i, Nat.add_mod_right, Nat.mod_eq_of_lt hi]

theorem add_mod_block2 {i n : ℕ} (hi : i < n) : (n + (n + i)) % n = i := by
  rw [show n + (n + i) = i + 2 * n from by omega,
    Nat.add_mul_mod_self_right, Nat.mod_eq_of_lt hi]

theorem run_diag0 {n i j : ℕ} (E : ℕ → ℕ × ℕ) (Ac : List (List ℕ))
    (T : ℕ → Vec3) (L : ℕ → ℚ) (W W0 : MatQ) (hi : i < n) (hj : j < n) :
    run n E Ac T L W W0 i j = buildA E T L W W0 Ac i j := by
  rw [run_entry,
    if_pos ⟨by omega, by omega,
      by rw [div_lt_self_eq_zero hi, div_lt_self_eq_zero hj]⟩,
    Nat.mod_eq_of_lt hi, Nat.mod_eq_of_lt hj]

theorem run_diag1 {n i j : ℕ} (E : ℕ → ℕ × ℕ) (Ac : List (List ℕ))
    (T : ℕ → Vec3) (L : ℕ → ℚ) (W W0 : MatQ) (hi : i < n) (hj : j < n) :
    run n E Ac T L W W0 (n + i) (n + j) = buildA E T L W W0 Ac i j := by
  rw [run_entry,
    if_pos ⟨by omega, by omega,
      by rw [add_div_block1 hi, add_div_block1 hj]⟩,
    add_mod_block1 hi, add_mod_block1 hj]

theorem run_diag2 {n i j : ℕ} (E : ℕ → ℕ × ℕ) (Ac : List (List ℕ))
    (T : ℕ → Vec3) (L : ℕ → ℚ) (W W0 : MatQ) (hi : i < n) (hj : j < n) :
    run n E Ac T L W W0 (n + (n + i)) (n + (n + j)) =
      buildA E T L W W0 Ac i j := by
  rw [run_entry,
    if_pos ⟨by omega, by omega,
      by rw [add_div_block2 hi, add_div_block2 hj]⟩,
    add_mod_block2 hi, add_mod_block2 hj]

theorem run_off {n a b : ℕ} (E : ℕ → ℕ × ℕ) (Ac : List (List ℕ))
    (T : ℕ → Vec3) (L : ℕ → ℚ) (W W0 : MatQ) (h : ¬ a / n = b / n) :
    run n E Ac T L W W0 a b = 0 := by
  rw [run_entry, if_neg (fun hc => h hc.2.2)]

theorem sum_range_shift (f : ℕ → ℚ) (m : ℕ) :
    ∀ k : ℕ, ∑ i ∈ Finset.range (m + k), f i =
      ∑ i ∈ Finset.range m, f i + ∑ i ∈ Finset.range k, f (m + i) := by
  intro k
  induction k with
  | zero => simp
  | succ k ih =>
    rw [show m + (k + 1) = (m + k) + 1 from rfl, Finset.sum_range_succ, ih,
      Finset.sum_range_succ]
    ring

theorem sum_range_triple (f : ℕ → ℚ) (n : ℕ) :
    ∑ i ∈ Finset.range (3 * n), f i =
      ∑ i ∈ Finset.range n, f i + ∑ i ∈ Finset.range n, f (n + i) +
        ∑ i ∈ Finset.range n, f (n + (n + i)) := by
  rw [show 3 * n = n + (n + n) from by ring, sum_range_shift,
    sum_range_shift]
  ring

theorem QF_run (n : ℕ) (E : ℕ → ℕ × ℕ) (Ac : List (List ℕ)) (T : ℕ → Vec3)
    (L : ℕ → ℚ) (W W0 : MatQ) (x : ℕ → ℚ) :
    QF (run n E Ac T L W W0) (3 * n) x =
      QF (buildA E T L W W0 Ac) n x +
      QF (buildA E T L W W0 Ac) n (fun i => x (n + i)) +
      QF (buildA E T L W W0 Ac) n (fun i => x (n + (n + i))) := by
  unfold QF
  rw [sum_range_triple (fun i => ∑ j ∈ Finset.range (3 * n),
    x i * run n E Ac T L W W0 i j * x j) n]
  have inner0 : ∀ i ∈ Finset.range n,
      ∑ j ∈ Finset.range (3 * n), x i * run n E Ac T L W W0 i j * x j =
      ∑ j ∈ Finset.range n, x i * buildA E T L W W0 Ac i j * x j := by
    intro i hi
    rw [sum_range_triple (fun j => x i * run n E Ac T L W W0 i j * x j) n]
    have hi' := Finset.mem_range.mp hi
    have h1 : ∑ j ∈ Finset.range n,
        x i * run n E Ac T L W W0 i j * x j =
        ∑ j ∈ Finset.range n, x i * buildA E T L W W0 Ac i j * x j :=
      Finset.sum_congr rfl (fun j hj => by
        rw [run_diag0 E Ac T L W W0 hi' (Finset.mem_range.mp hj)])
    have h2 : ∑ j ∈ Finset.range n,
        x i * run n E Ac T L W W0 i (n + j) * x (n + j) = 0 :=
      Finset.sum_eq_zero (fun j hj => by
        rw [run_off E Ac T L W W0 (by
          rw [div_lt_self_eq_zero hi', add_div_block1 (Finset.mem_range.mp hj)]
          omega)]
        ring)
    have h3 : ∑ j ∈ Finset.range n,
        x i * run n E Ac T L W W0 i (n + (n + j)) * x (n + (n + j)) = 0 :=
      Finset.sum_eq_zero (fun j hj => by
        rw [run_off E Ac T L W W0 (by
          rw [div_lt_self_eq_zero hi', add_div_block2 (Finset.mem_range.mp hj)]
          omega)]
        ring)
    rw [h1, h2, h3]
    ring
  have inner1 : ∀ i ∈ Finset.range n,
      ∑ j ∈ Finset.range (3 * n),
        x (n + i) * run n E Ac T L W W0 (n + i) j * x j =
      ∑ j ∈ Finset.range n,
        x (n + i) * buildA E T L W W0 Ac i j * x (n + j) := by
    intro i hi
    rw [sum_range_triple
      (fun j => x (n + i) * run n E Ac T L W W0 (n + i) j * x j) n]
    have hi' := Finset.mem_range.mp hi
    have h1 : ∑ j ∈ Finset.range n,
        x (n + i) * run n E Ac T L W W0 (n + i) j * x j = 0 :=
      Finset.sum_eq_zero (fun j hj => by
        rw [run_off E Ac T L W W0 (by
          rw [add_div_block1 hi',
            div_lt_self_eq_zero (Finset.mem_range.mp hj)]
          omega)]
        ring)
    have h2 : ∑ j ∈ Finset.range n,
        x (n + i) * run n E Ac T L W W0 (n + i) (n + j) * x (n + j) =
        ∑ j ∈ Finset.range n,
          x (n + i) * buildA E T L W W0 Ac i j * x (n + j) :=
      Finset.sum_congr rfl (fun j hj => by
        rw [run_diag1 E Ac T L W W0 hi' (Finset.mem_range.mp hj)])
    have h3 : ∑ j ∈ Finset.range n,
        x (n + i) * run n E Ac T L W W0 (n + i) (n + (n + j)) *
          x (n + (n + j)) = 0 :=
      Finset.sum_eq_zero (fun j hj => by
        rw [run_off E Ac T L W W0 (by
          rw [add_div_block1 hi', add_div_block2 (Finset.mem_range.mp hj)]
          omega)]
        ring)
    rw [h1, h2, h3]
    ring
  have inner2 : ∀ i ∈ Finset.range n,
      ∑ j ∈ Finset.range (3 * n),
        x (n + (n + i)) * run n E Ac T L W W0 (n + (n + i)) j * x j =
      ∑ j ∈ Finset.range n,
        x (n + (n + i)) * buildA E T L W W0 Ac i j * x (n + (n + j)) := by
    intro i hi
    rw [sum_range_triple
      (fun j => x (n + (n + i)) * run n E Ac T L W W0 (n + (n + i)) j * x j) n]
    have hi' := Finset.mem_range.mp hi
    have h1 : ∑ j ∈ Finset.range n,
        x (n + (n + i)) * run n E Ac T L W W0 (n + (n + i)) j * x j = 0 :=
      Finset.sum_eq_zero (fun j hj => by
        rw [run_off E Ac T L W W0 (by
          rw [add_div_block2 hi',
            div_lt_self_eq_zero (Finset.mem_range.mp hj)]
          omega)]
        ring)
    have h2 : ∑ j ∈ Finset.range n,
        x (n + (n + i)) * run n E Ac T L W W0 (n + (n + i)) (n + j) *
          x (n + j) = 0 :=
      Finset.sum_eq_zero (fun j hj => by
        rw [run_off E Ac T L W W0 (by
          rw [add_div_block2 hi', add_div_block1 (Finset.mem_range.mp hj)]
          omega)]
        ring)
    have h3 : ∑ j ∈ Finset.range n,
        x (n + (n + i)) * run n E Ac T L W W0 (n + (n + i)) (n + (n + j)) *
          x (n + (n + j)) =
        ∑ j ∈ Finset.range n,
          x (n + (n + i)) * buildA E T L W W0 Ac i j * x (n + (n + j)) :=
      Finset.sum_congr rfl (fun j hj => by
        rw [run_diag2 E Ac T L W W0 hi' (Finset.mem_range.mp hj)])
    rw [h1, h2, h3]
    ring
  rw [Finset.sum_congr rfl inner0, Finset.sum_congr rfl inner1,
    Finset.sum_congr rfl inner2]

theorem QF_run_nonneg {N : ℕ} (E : ℕ → ℕ × ℕ) (T : ℕ → Vec3) (L : ℕ → ℚ)
    (W W0 : MatQ) (Ac : List (List ℕ)) (x : ℕ → ℚ)
    (hE : ∀ p ∈ pairList Ac, (E p.1).1 < N ∧ (E p.1).2 < N ∧
      (E p.2).1 < N ∧ (E p.2).2 < N)
    (hW : ∀ p ∈ pairList Ac, 0 ≤ W p.1 p.2)
    (hW0 : ∀ p ∈ pairList Ac, 0 ≤ W0 p.1 p.2)
    (hT : ∀ I, dotV (T I) (T I) ≤ 1) :
    0 ≤ QF (run N E Ac T L W W0) (3 * N) x := by
  rw [QF_run]
  have h0 := QF_buildA_nonneg E T L W W0 Ac x hE hW hW0 hT
  have h1 := QF_buildA_nonneg E T L W W0 Ac (fun i => x (N + i)) hE hW hW0 hT
  have h2 := QF_buildA_nonneg E T L W W0 Ac (fun i => x (N + (N + i)))
    hE hW hW0 hT
  linarith

end BuildABar

/-- Component access of a 3-vector by coordinate index 0, 1, 2 (used for the
flattened `3N`-column layouts of `Deriv` and `C`). -/
def vecComp (v : Vec3) (k : ℕ) : ℚ :=
  if k = 0 then v.x else if k = 1 then v.y else v.z

namespace CDeriv

/-!
Embedding of `constraint_derivative` (file `src/constraint_derivative.js`).
The result is the constraint Jacobian `C`, `(1 + #constr_edges) × 3N`: row 0
is the total-length constraint derivative, rows `1..` the fixed-edge-length
constraint derivatives.  Entries are represented as a total function indexed
by `(row, col)` with `col = 3*p + coordinate`; the write pattern of the
source's `set` calls (with the second endpoint's write overwriting the first
on a self-loop edge) is reproduced in the entry function.
-/

/-- Accumulation of the total-length row for vertex `p` (lines 32–50): each
incident edge contributes `−diff/L(I)` with `diff` oriented by which endpoint
of `I` equals `p`. -/
def rowLoop (E : ℕ → ℕ × ℕ) (V : ℕ → Vec3) (L : ℕ → ℚ) (p : ℕ)
    (adj : List ℕ) : Vec3 :=
  adj.foldl
    (fun d I =>
      if (E I).1 = p then
        subV d (scaleV (subV (V (E I).1) (V (E I).2)) (1 / L I))
      else if (E I).2 = p then
        subV d (scaleV (subV (V (E I).2) (V (E I).1)) (1 / L I))
      else d)
    ⟨0, 0, 0⟩

/-- The result of `constraint_derivative`: a row count and the matrix. -/
structure CMat where
  rows : ℕ
  mat : MatQ

/-- Assembled `C` (lines 24–98).  Row 0 carries `rowLoop`; row `1 + i`
carries `∓diff/L(I)` at the two endpoint blocks of `constr_edges[i]`. -/
def run (E : ℕ → ℕ × ℕ) (V : ℕ → Vec3) (L : ℕ → ℚ)
    (E_adj : List (List ℕ)) (constr_edges : List ℕ) (pt_num : ℕ) : CMat :=
  { rows := 1 + constr_edges.length
    mat := fun r c =>
      if r = 0 then
        (if c / 3 < pt_num then
          vecComp (rowLoop E V L (c / 3) (E_adj.getD (c / 3) [])) (c % 3)
        else 0)
      else if r - 1 < constr_edges.length then
        (if c / 3 = (E (constr_edges.getD (r - 1) 0)).2 then
          vecComp (subV (V (E (constr_edges.getD (r - 1) 0)).1)
            (V (E (constr_edges.getD (r - 1) 0)).2)) (c % 3) /
            L (constr_edges.getD (r - 1) 0)
        else if c / 3 = (E (constr_edges.getD (r - 1) 0)).1 then
          -(vecComp (subV (V (E (constr_edges.getD (r - 1) 0)).1)
            (V (E (constr_edges.getD (r - 1) 0)).2)) (c % 3)) /
            L (constr_edges.getD (r - 1) 0)
        else 0)
      else 0 }

theorem run_rows (E : ℕ → ℕ × ℕ) (V : ℕ → Vec3) (L : ℕ → ℚ)
    (E_adj : List (List ℕ)) (constr_edges : List ℕ) (pt_num : ℕ) :
    (run E V L E_adj constr_edges pt_num).rows = 1 + constr_edges.length :=
  rfl

end CDeriv

namespace LossDeriv

/-!
Embedding of `loss_derivative` (file `unnamed/part_004`): the analytic
gradient of the discrete tangent-point energy, one 3-vector per vertex,
flattened into a `1 × 3N` row.
-/

/-- The canonical basis vectors `e1, e2, e3` of the source. -/
def e1 : Vec3 := ⟨1, 0, 0⟩

def e2 : Vec3 := ⟨0, 1, 0⟩

def e3 : Vec3 := ⟨0, 0, 1⟩

/-- Source helper `createCrossMatrix`: the three rows `v × e1, v × e2,
v × e3`. -/
def crossMatRows (v : Vec3) : Vec3 × Vec3 × Vec3 :=
  (crossV v e1, crossV v e2, crossV v e3)

/-- Source helper `matrixVectorMultiply` on the row triple. -/
def matVec (m : Vec3 × Vec3 × Vec3) (w : Vec3) : Vec3 :=
  ⟨dotV m.1 w, dotV m.2.1 w, dotV m.2.2 w⟩

/-- The contribution of one `(I, J, i, j)` combination with `E[I,i] = p`
(part_004 lines 50–183): the four case blocks, each scaled by
`0.25 * L(J)` (case `J:1,2` carries its scale inline), summed. -/
def caseTerms (alpha beta : ℚ) (V T : ℕ → Vec3) (L : ℕ → ℚ)
    (I J i1 i2 j1 : ℕ) : Vec3 :=
  let diff_i2_j1 := subV (V i2) (V j1)
  let cross_term := subV (crossV diff_i2_j1 (V i1)) (crossV (V i2) (V j1))
  let denom_diff := subV (V i1) (V j1)
  let TMat := crossMatRows diff_i2_j1
  let term1 := scaleV (subV (V i1) (V i2))
    ((1 - alpha) * jpow (L I) (-1 * alpha - 1) *
      jpow (normV cross_term) alpha * jpow (normV denom_diff) (-1 * beta))
  let term2 := matVec TMat (scaleV cross_term
    (alpha * jpow (L I) (1 - alpha) * jpow (normV denom_diff) (-1 * beta) *
      jpow (normV cross_term) (alpha - 2)))
  let term3 := scaleV denom_diff
    (-1 * beta * jpow (L I) (1 - alpha) *
      jpow (normV denom_diff) (-1 * beta - 2) * jpow (normV cross_term) alpha)
  let acc1 := scaleV (addV (addV term1 term2) term3) (1 / 4 * L J)
  let denom_diff2 := subV (V i2) (V j1)
  let term1b := scaleV (subV (V i1) (V i2))
    ((1 - alpha) * jpow (L I) (-1 * alpha - 1) *
      jpow (normV cross_term) alpha * jpow (normV denom_diff2) (-1 * beta))
  let term2b := matVec TMat (scaleV cross_term
    (alpha * jpow (L I) (1 - alpha) * jpow (normV denom_diff2) (-1 * beta) *
      jpow (normV cross_term) (alpha - 2)))
  let acc2 := scaleV (addV term1b term2b) (1 / 4 * L J)
  let TJ := T J
  let TMatJ := crossMatRows TJ
  let denom_diff3 := subV (V i1) (V j1)
  let cross_term3 := crossV TJ denom_diff3
  let term1c := scaleV denom_diff3
    ((jpow (normV cross_term3) alpha * jpow (normV denom_diff3) (-1 * beta)) /
      L I)
  let term2c := matVec TMatJ (scaleV cross_term3
    (alpha * L I * jpow (normV denom_diff3) (-1 * beta) *
      jpow (normV cross_term3) (alpha - 2)))
  let term3c := scaleV denom_diff3
    (-1 * beta * L I * jpow (normV denom_diff3) (-1 * beta - 2) *
      jpow (normV cross_term3) alpha)
  let acc3 := scaleV (addV (addV term1c term2c) term3c) (1 / 4 * L J)
  let denom_diff4 := subV (V i2) (V j1)
  let cross_term4 := crossV TJ denom_diff4
  let acc4 := scaleV (subV (V i1) (V i2))
    (1 / 4 * (L J / L I) * jpow (normV cross_term4) alpha *
      jpow (normV denom_diff4) (-1 * beta))
  addV (addV (addV acc1 acc2) acc3) acc4

/-- The accumulated derivative 3-vector for vertex `p`: edges `I` incident to
`p`, edges `J` disjoint from `I`, endpoint combinations with
`E[I,i] = p`. -/
def derivP (alpha beta : ℚ) (E : ℕ → ℕ × ℕ) (Ac E_adj : List (List ℕ))
    (V T : ℕ → Vec3) (L : ℕ → ℚ) (p : ℕ) : Vec3 :=
  (E_adj.getD p []).foldl
    (fun acc I =>
      (Ac.getD I []).foldl
        (fun acc2 J =>
          abPairs.foldl
            (fun acc3 ij =>
              if ept (E I) ij.1 = p then
                addV acc3 (caseTerms alpha beta V T L I J
                  (ept (E I) ij.1) (ept (E I) ((ij.1 + 1) % 2))
                  (ept (E J) ij.2))
              else acc3)
            acc2)
        acc)
    ⟨0, 0, 0⟩

/-- The flattened `1 × 3N` row `Deriv`. -/
def run (alpha beta : ℚ) (E : ℕ → ℕ × ℕ) (Ac E_adj : List (List ℕ))
    (V T : ℕ → Vec3) (L : ℕ → ℚ) (pt_num : ℕ) : ℕ → ℚ :=
  fun col =>
    if col < 3 * pt_num then
      vecComp (derivP alpha beta E Ac E_adj V T L (col / 3)) (col % 3)
    else 0

end LossDeriv

namespace RepIter

/-!
Embedding of `repulsion_iteration` (file `unnamed/part_003`).  Two views are
given:

* value-level definitions of the pieces (constraint counting, lengths and
  tangents, the stubbed `solveSystem`, the descent direction, the
  backtracking line search with its projection loop), used to reason about
  the algorithm the source text writes down — with one JavaScript scoping
  fact made explicit: `constraint_vals` is declared with `let` inside the
  projection `while` block, so the read of it at the acceptance test (line
  243) refers to a name that is out of scope there; the value-level reading
  `cvLast` below denotes the value of the *last declared* instance of that
  block-local variable (`none` when the loop body never ran);
* a staged (`Except`) run `run` of the whole function under JavaScript
  binding semantics.  `Deriv` is declared `const` (line 89) and reassigned at
  the normalization step (line 124, `Deriv = scaleMatrix(Deriv, 1/deriv_norm)`),
  which raises `TypeError: assignment to constant variable`; every call that
  completes the BUILD phase therefore faults there, before the line search.
-/

/-- JavaScript fault kinds relevant to this function. -/
inductive JsErr where
  | matrixAccess : JsErr
  | assignmentToConst : JsErr
  | referenceError : JsErr
deriving DecidableEq, Repr

/-- The per-call inputs of `repulsion_iteration` other than `V`. -/
structure Ctx where
  alpha : ℚ
  beta : ℚ
  aConst : ℚ
  bConst : ℚ
  threshold : ℚ
  maxIters : ℕ
  E : List (ℕ × ℕ)
  Ac : List (List ℕ)
  Eadj : List (List ℕ)
  lengths : List ℚ

/-- Edge list as a total index function. -/
def Efn (c : Ctx) : ℕ → ℕ × ℕ := fun i => c.E.getD i (0, 0)

/-- Vertex matrix as a total index function. -/
def Vfn (V : List Vec3) : ℕ → Vec3 := fun i => V.getD i ⟨0, 0, 0⟩

/-- Lines 51–56: `three_way`, the number of (branch vertex, incident edge)
incidences at vertices of degree > 2. -/
def threeWay (E_adj : List (List ℕ)) (pt_num : ℕ) : ℕ :=
  (List.range pt_num).foldl
    (fun s i =>
      if 2 < (E_adj.getD i []).length then s + (E_adj.getD i []).length
      else s)
    0

/-- Lines 59–69: `constr_edges`, filled by pushing, for every vertex of
degree > 2, all of its incident edges in order. -/
def constrEdges (E_adj : List (List ℕ)) (pt_num : ℕ) : List ℕ :=
  (List.range pt_num).foldl
    (fun acc i =>
      if 2 < (E_adj.getD i []).length then acc ++ E_adj.getD i [] else acc)
    []

/-- Line 72: the original total length `l0`. -/
def l0Of (lengths : List ℚ) : ℚ := lengths.foldl (fun s v => s + v) 0

/-- Lines 78–82: current edge length `L[i]`. -/
def computeL (E : ℕ → ℕ × ℕ) (V : ℕ → Vec3) (i : ℕ) : ℚ :=
  normV (subV (V (E i).2) (V (E i).1))

/-- Lines 78–82: current unit tangent `T[i]`. -/
def computeT (E : ℕ → ℕ × ℕ) (V : ℕ → Vec3) (i : ℕ) : Vec3 :=
  scaleV (subV (V (E i).2) (V (E i).1)) (1 / computeL E V i)

/-- Lines 312–316: the placeholder solver, which ignores the matrix and
returns `zeros(b.size()[0])`. -/
def solveSystem (A : MatQ) (b : List ℚ) : List ℚ :=
  List.replicate b.length 0

/-- Lines 113–118: the descent direction, `-Unknown` on the first `3N`
coordinates. -/
def descentDir (pt_num : ℕ) (unknown : List ℚ) : ℕ → ℚ :=
  fun idx => if idx < 3 * pt_num then -(unknown.getD idx 0) else 0

/-- Flat vector norm over the first `3N` coordinates
(`vectorNorm(v.toArray())`). -/
def flatNorm (pt_num : ℕ) (v : ℕ → ℚ) : ℚ :=
  normL ((List.range (3 * pt_num)).map v)

/-- Line 123 / 124: `scaleMatrix(v, 1/flatNorm v)` applied to a flat row. -/
def normalizeFlat (pt_num : ℕ) (v : ℕ → ℚ) : ℕ → ℚ :=
  fun i => v i * (1 / flatNorm pt_num v)

/-- The state entering the line search: the context plus everything the
BUILD phase bound in scope (current `V`, counts, `Unknown` from the solve,
the normalized descent direction and normalized `Deriv`, the constrained
edges list, `k` and `l0`). -/
structure LS where
  alpha : ℚ
  beta : ℚ
  aC : ℚ
  bC : ℚ
  th : ℚ
  maxIters : ℕ
  ptN : ℕ
  edgeN : ℕ
  k : ℕ
  E : ℕ → ℕ × ℕ
  Ac : List (List ℕ)
  lengths : List ℚ
  cEdges : List ℕ
  l0 : ℚ
  V : ℕ → Vec3
  unknown : List ℚ
  ddirN : ℕ → ℚ
  derivN : ℕ → ℚ

/-- Lines 130–135: the trial step `V_new = V - t * Unknown` (flattened
coordinates). -/
def trialV (ls : LS) (t : ℚ) : ℕ → Vec3 :=
  fun i =>
    ⟨(ls.V i).x - t * ls.unknown.getD (3 * i) 0,
      (ls.V i).y - t * ls.unknown.getD (3 * i + 1) 0,
      (ls.V i).z - t * ls.unknown.getD (3 * i + 2) 0⟩

/-- Lines 153–161: the constraint value vector at edge lengths `Ln`. -/
def cvals (ls : LS) (Ln : ℕ → ℚ) : List ℚ :=
  (ls.l0 - ((List.range ls.edgeN).map Ln).sum) ::
    (List.range (ls.k - 1)).map
      (fun i =>
        ls.lengths.getD (ls.cEdges.getD i 0) 0 - Ln (ls.cEdges.getD i 0))

/-- Lines 168–171: the projection right-hand side, `-constraint_vals` placed
after `3N` zeros. -/
def right2 (ls : LS) (cv : List ℚ) : List ℚ :=
  List.replicate (3 * ls.ptN) 0 ++ cv.map (fun v => -v)

/-- Lines 151–194: the projection loop, with fuel `max_iters`.  The second
component carries the value of the most recently declared block-local
`constraint_vals` (`none` when the body never executed). -/
def projLoop (ls : LS) : ℕ → (ℕ → Vec3) → Option (List ℚ) →
    (ℕ → Vec3) × Option (List ℚ)
  | 0, Vc, acc => (Vc, acc)
  | fuel + 1, Vc, acc =>
    let cv := cvals ls (computeL ls.E Vc)
    if normL cv ≤ ls.th then (Vc, some cv)
    else
      let u2 := solveSystem (fun _ _ => 0) (right2 ls cv)
      let Vc2 := fun i => addV (Vc i)
        ⟨u2.getD (3 * i) 0, u2.getD (3 * i + 1) 0, u2.getD (3 * i + 2) 0⟩
      projLoop ls fuel Vc2 (some cv)

/-- The projected trial vertices and last `constraint_vals` for step size
`t`. -/
def projOut (ls : LS) (t : ℚ) : (ℕ → Vec3) × Option (List ℚ) :=
  projLoop ls ls.maxIters (trialV ls t) none

/-- The trial vertices after projection. -/
def VnewOf (ls : LS) (t : ℚ) : ℕ → Vec3 := (projOut ls t).1

/-- Value-level reading of the `constraint_vals` occurrence in the
acceptance test: the last declared instance of the block-local variable. -/
def cvLast (ls : LS) (t : ℚ) : List ℚ := ((projOut ls t).2).getD []

/-- Lines 202–239: the tangent-point energy double sum at a geometry
(either the old `V, T, L` for `right_side` or the new ones for
`f_delta`). -/
def energySum (ls : LS) (Vc Tc : ℕ → Vec3) (Lc : ℕ → ℚ) : ℚ :=
  ((List.range ls.edgeN).map
    (fun I =>
      ((ls.Ac.getD I []).map
        (fun J =>
          (abPairs.map
            (fun ij =>
              Lc I * Lc J * (1 / 4) *
                jpow (normV (crossV (Tc I)
                  (subV (Vc (ept (ls.E I) ij.1))
                    (Vc (ept (ls.E J) ij.2))))) ls.alpha *
                jpow (normV (subV (Vc (ept (ls.E I) ij.1))
                  (Vc (ept (ls.E J) ij.2)))) (-ls.beta))).sum)).sum)).sum

/-- Lines 197–239: the new-geometry energy `f_delta` at step size `t`. -/
def fDelta (ls : LS) (t : ℚ) : ℚ :=
  energySum ls (VnewOf ls t) (computeT ls.E (VnewOf ls t))
    (computeL ls.E (VnewOf ls t))

/-- Lines 197–239: `right_side` at step size `t`: the normalized
direction/gradient dot product scaled by `t * a_const`, plus the
old-geometry energy. -/
def rightSide (ls : LS) (t : ℚ) : ℚ :=
  dotL (3 * ls.ptN) ls.ddirN ls.derivN * (t * ls.aC) +
    energySum ls ls.V (computeT ls.E ls.V) (computeL ls.E ls.V)

/-- Lines 241–244, value-level: the acceptance test, the conjunction of the
Armijo inequality and the strict residual check (reading `constraint_vals`
at its last declared value). -/
def accepted (ls : LS) (t : ℚ) : Bool :=
  decide (fDelta ls t ≤ rightSide ls t) &&
    decide (normL (cvLast ls t) < ls.th)

/-- Result of the fuel-indexed line search: either an accepted `V` or the
step size still being tried when the fuel ran out (the source loop is
`while (true)` and has no other exit). -/
inductive LsRes where
  | done : (ℕ → Vec3) → LsRes
  | running : ℚ → LsRes

/-- Lines 127–250: the backtracking loop, fuel-indexed.  One pass takes the
trial step, projects, evaluates the acceptance test; on rejection,
`t ← t * b_const`. -/
def lineSearchFuel (ls : LS) : ℕ → ℚ → LsRes
  | 0, t => LsRes.running t
  | fuel + 1, t =>
    if accepted ls t then LsRes.done (VnewOf ls t)
    else lineSearchFuel ls fuel (t * ls.bC)

/-- Step size still in play, if the search is unfinished. -/
def runningT : LsRes → Option ℚ
  | LsRes.running t => some t
  | LsRes.done _ => none

/-- Checked vertex-row access (mathjs faults on an out-of-range index). -/
def vrow (V : List Vec3) (i : ℕ) : Except JsErr Vec3 :=
  match V.get? i with
  | some v => Except.ok v
  | none => Except.error JsErr.matrixAccess

/-- Body of one pass of the `L`/`T` loop, lines 78–82 (the first reads of
`V` in the function). -/
def edgeBody (V : List Vec3) (e : ℕ × ℕ) : Except JsErr ℚ := do
  let p2 ← vrow V e.2
  let p1 ← vrow V e.1
  pure (normV (subV p2 p1))

/-- Staged run of `repulsion_iteration` under JavaScript binding semantics.
The BUILD phase executes: counting, `L`/`T` (with checked vertex reads),
`build_weights`, `build_A_bar`, `loss_derivative`, `constraint_derivative`,
the zero `Left`, `Right`, the stubbed solve, the descent direction and the
two norms, and the `descent_dir` normalization (line 123, a `let`
rebinding).  Line 124 then assigns to the `const`-declared `Deriv`, raising
`TypeError`; everything after it (the whole line search and recentering) is
unreachable. -/
def run (c : Ctx) (V : List Vec3) : Except JsErr (List Vec3) := do
  let pt_num := V.length
  let _tw := threeWay c.Eadj pt_num
  let ce := constrEdges c.Eadj pt_num
  let _l0 := l0Of c.lengths
  let _Lchecked ← (List.range c.E.length).mapM
    (fun i => edgeBody V (Efn c i))
  let Lf := computeL (Efn c) (Vfn V)
  let Tf := computeT (Efn c) (Vfn V)
  let WW := BuildWeights.run c.alpha c.beta (Efn c) c.Ac (Vfn V) Tf Lf
  let _Abar := BuildABar.run pt_num (Efn c) c.Ac Tf Lf WW.1 WW.2
  let Deriv := LossDeriv.run c.alpha c.beta (Efn c) c.Ac c.Eadj (Vfn V) Tf Lf
    pt_num
  let C := CDeriv.run (Efn c) (Vfn V) Lf c.Eadj ce pt_num
  let k := C.rows
  let Left : MatQ := fun _ _ => 0
  let Right := (List.range (3 * pt_num)).map Deriv ++ List.replicate k 0
  let unknown := solveSystem Left Right
  let ddir := descentDir pt_num unknown
  let _descent_norm := flatNorm pt_num ddir
  let _deriv_norm := flatNorm pt_num Deriv
  let _ddirN := normalizeFlat pt_num ddir
  throw JsErr.assignmentToConst

theorem vrow_isOk_iff {V : List Vec3} {i : ℕ} :
    (vrow V i).isOk = true ↔ i < V.length := by
  unfold vrow
  cases h : V.get? i with
  | none =>
    have hlen := List.get?_eq_none.mp h
    simp only [InitCurve.isOk_err, Bool.false_eq_true, false_iff]
    omega
  | some v =>
    have hlt := List.get?_eq_some.mp h
    simp only [InitCurve.isOk_ok, true_iff]
    exact hlt.1

theorem edgeBody_isOk_iff {V : List Vec3} {e : ℕ × ℕ} :
    (edgeBody V e).isOk = true ↔ e.2 < V.length ∧ e.1 < V.length := by
  rw [← vrow_isOk_iff (V := V) (i := e.2), ← vrow_isOk_iff (V := V) (i := e.1)]
  unfold edgeBody
  cases h1 : vrow V e.2 with
  | error f => simp [InitCurve.err_bind, InitCurve.isOk_err]
  | ok p =>
    cases h2 : vrow V e.1 with
    | error f =>
      simp [InitCurve.ok_bind, InitCurve.err_bind, InitCurve.err_map,
        InitCurve.isOk_err, InitCurve.isOk_ok]
    | ok q =>
      simp [InitCurve.ok_bind, InitCurve.ok_map, InitCurve.pure_eq_ok,
        InitCurve.isOk_err, InitCurve.isOk_ok]

/-- Under JavaScript binding semantics, every call of `repulsion_iteration`
whose edges reference in-range vertices completes the BUILD phase and then
faults with the `const`-assignment `TypeError` at the `Deriv` normalization
(line 124) — it never reaches the line search, never accepts a step, and
never returns updated vertices. -/
theorem run_faults (c : Ctx) (V : List Vec3)
    (hE : ∀ e ∈ c.E, e.1 < V.length ∧ e.2 < V.length) :
    run c V = Except.error JsErr.assignmentToConst := by
  have hok : ((List.range c.E.length).mapM
      (fun i => edgeBody V (Efn c i))).isOk = true := by
    rw [InitCurve.mapM_isOk (fun i => edgeBody V (Efn c i))
      (List.range c.E.length)]
    intro i hi
    rw [edgeBody_isOk_iff]
    rw [List.mem_range] at hi
    have hmem : Efn c i ∈ c.E := by
      unfold Efn
      exact List.getD_eq_getElem c.E (0, 0) hi ▸ List.getElem_mem hi
    exact ⟨(hE _ hmem).2, (hE _ hmem).1⟩
  unfold run
  cases hm : (List.range c.E.length).mapM (fun i => edgeBody V (Efn c i)) with
  | error f =>
    rw [hm] at hok
    exact absurd hok (by simp [InitCurve.isOk_err])
  | ok ls => rfl

end RepIter

/-! Counting lemmas for the constraint-set structure (part_003 lines 50–69
and `constraint_derivative`). -/

theorem foldl_append_filter {α : Type} (P : ℕ → Prop) [DecidablePred P]
    (f : ℕ → List α) :
    ∀ (l : List ℕ) (acc : List α),
      l.foldl (fun acc i => if P i then acc ++ f i else acc) acc =
        acc ++ (l.filter (fun i => decide (P i))).flatMap f := by
  intro l
  induction l with
  | nil => intro acc; simp
  | cons hd tl ih =>
    intro acc
    rw [List.foldl_cons]
    by_cases h : P hd
    · rw [if_pos h, ih, List.filter_cons_of_pos (by simpa using h),
        List.flatMap_cons, List.append_assoc]
    · rw [if_neg h, ih, List.filter_cons_of_neg (by simpa using h)]

theorem foldl_add_filter (P : ℕ → Prop) [DecidablePred P] (g : ℕ → ℕ) :
    ∀ (l : List ℕ) (s : ℕ),
      l.foldl (fun s i => if P i then s + g i else s) s =
        s + ((l.filter (fun i => decide (P i))).map g).sum := by
  intro l
  induction l with
  | nil => intro s; simp
  | cons hd tl ih =>
    intro s
    rw [List.foldl_cons]
    by_cases h : P hd
    · rw [if_pos h, ih, List.filter_cons_of_pos (by simpa using h)]
      simp only [List.map_cons, List.sum_cons]
      omega
    · rw [if_neg h, ih, List.filter_cons_of_neg (by simpa using h)]

theorem count_flatMap (f : ℕ → List ℕ) (I : ℕ) :
    ∀ l : List ℕ,
      (l.flatMap f).count I = (l.map (fun i => (f i).count I)).sum := by
  intro l
  induction l with
  | nil => simp
  | cons hd tl ih =>
    rw [List.flatMap_cons, List.count_append, ih]
    simp

theorem length_flatMap_eq (f : ℕ → List ℕ) :
    ∀ l : List ℕ,
      (l.flatMap f).length = (l.map (fun i => (f i).length)).sum := by
  intro l
  induction l with
  | nil => simp
  | cons hd tl ih =>
    rw [List.flatMap_cons, List.length_append, ih]
    simp

theorem sum_map_ite_one (P : ℕ → Prop) [DecidablePred P] :
    ∀ l : List ℕ,
      (l.map (fun i => if P i then 1 else 0)).sum =
        (l.filter (fun i => decide (P i))).length := by
  intro l
  induction l with
  | nil => simp
  | cons hd tl ih =>
    simp only [List.map_cons, List.sum_cons]
    by_cases h : P hd
    · rw [if_pos h, List.filter_cons_of_pos (by simpa using h),
        List.length_cons, ih]
      omega
    · rw [if_neg h, List.filter_cons_of_neg (by simpa using h), ih]
      omega

theorem constrEdges_eq (E_adj : List (List ℕ)) (N : ℕ) :
    RepIter.constrEdges E_adj N =
      ((List.range N).filter
        (fun i => decide (2 < (E_adj.getD i []).length))).flatMap
        (fun i => E_adj.getD i []) := by
  unfold RepIter.constrEdges
  rw [foldl_append_filter (fun i => 2 < (E_adj.getD i []).length)
    (fun i => E_adj.getD i []) (List.range N) []]
  rfl

theorem constrEdges_length (E_adj : List (List ℕ)) (N : ℕ) :
    (RepIter.constrEdges E_adj N).length = RepIter.threeWay E_adj N := by
  rw [constrEdges_eq, length_flatMap_eq]
  unfold RepIter.threeWay
  rw [foldl_add_filter (fun i => 2 < (E_adj.getD i []).length)
    (fun i => (E_adj.getD i []).length) (List.range N) 0]
  omega

theorem constrEdges_count (E_adj : List (List ℕ)) (N : ℕ) (I : ℕ)
    (hnd : ∀ p, (E_adj.getD p []).Nodup) :
    (RepIter.constrEdges E_adj N).count I =
      ((List.range N).filter
        (fun p => decide (2 < (E_adj.getD p []).length ∧
          I ∈ E_adj.getD p []))).length := by
  rw [constrEdges_eq, count_flatMap]
  have hcount : ∀ p, (E_adj.getD p []).count I =
      if I ∈ E_adj.getD p [] then 1 else 0 := by
    intro p
    by_cases hm : I ∈ E_adj.getD p []
    · rw [if_pos hm]
      exact List.count_eq_one_of_mem (hnd p) hm
    · rw [if_neg hm]
      exact List.count_eq_zero.mpr hm
  rw [List.map_congr_left (fun p _ => hcount p)]
  rw [sum_map_ite_one (fun p => I ∈ E_adj.getD p []) ]
  rw [List.filter_filter]
  refine congrArg List.length (List.filter_congr (fun a _ => ?_))
  rw [Bool.decide_and]
  exact Bool.and_comm _ _

/-! Concrete fixtures used by witnesses and counterexamples. -/

/-- The spec's example curve: the unit square. -/
def sqV : List Vec3 := [⟨-1, -1, 0⟩, ⟨1, -1, 0⟩, ⟨1, 1, 0⟩, ⟨-1, 1, 0⟩]

/-- Square edges (0-based ring). -/
def sqE : List (ℕ × ℕ) := [(0, 1), (1, 2), (2, 3), (3, 0)]

/-- Square edge list as an index function. -/
def sqEfn : ℕ → ℕ × ℕ := fun i => sqE.getD i (0, 0)

/-- Square disjointness lists, built by `init_curve`. -/
def sqAc : List (List ℕ) := InitCurve.buildAc sqEfn 4

/-- Square incidence lists, built by `init_curve`. -/
def sqEadj : List (List ℕ) := InitCurve.buildEadj sqEfn 4 4

/-- A concrete call context for `repulsion_iteration` on the square, with
rest lengths `[1,1,1,1]` (the square's current side length is 2, so the
constraint residual is 4 and stays above the threshold 1 under the
zero-direction updates). -/
def sqCtx : RepIter.Ctx :=
  { alpha := 2, beta := 4, aConst := 1 / 4, bConst := 1 / 2, threshold := 1,
    maxIters := 1, E := sqE, Ac := sqAc, Eadj := sqEadj,
    lengths := [1, 1, 1, 1] }

/-- The `Deriv` row the BUILD phase computes on the square. -/
def sqDeriv : ℕ → ℚ :=
  LossDeriv.run 2 4 sqEfn sqAc sqEadj (RepIter.Vfn sqV)
    (RepIter.computeT sqEfn (RepIter.Vfn sqV))
    (RepIter.computeL sqEfn (RepIter.Vfn sqV)) 4

/-- The `Unknown` vector the BUILD phase computes on the square (the
stubbed solve of the saddle system). -/
def sqUnknown : List ℚ :=
  RepIter.solveSystem (fun _ _ => 0)
    ((List.range 12).map sqDeriv ++ List.replicate 1 0)

/-- The line-search state entering the backtracking loop on the square. -/
def lsC : RepIter.LS :=
  { alpha := 2, beta := 4, aC := 1 / 4, bC := 1 / 2, th := 1, maxIters := 1,
    ptN := 4, edgeN := 4,
    k := (CDeriv.run sqEfn (RepIter.Vfn sqV)
      (RepIter.computeL sqEfn (RepIter.Vfn sqV)) sqEadj
      (RepIter.constrEdges sqEadj 4) 4).rows,
    E := sqEfn, Ac := sqAc, lengths := [1, 1, 1, 1],
    cEdges := RepIter.constrEdges sqEadj 4,
    l0 := RepIter.l0Of [1, 1, 1, 1],
    V := RepIter.Vfn sqV,
    unknown := sqUnknown,
    ddirN := RepIter.normalizeFlat 4 (RepIter.descentDir 4 sqUnknown),
    derivN := RepIter.normalizeFlat 4 sqDeriv }

theorem getD_replicate_zero : ∀ (n i : ℕ),
    (List.replicate n (0 : ℚ)).getD i 0 = 0 := by
  intro n
  induction n with
  | zero => intro i; rfl
  | succ n ih =>
    intro i
    cases i with
    | zero => rfl
    | succ i => exact ih i

theorem sqUnknown_getD (i : ℕ) : sqUnknown.getD i 0 = 0 := by
  unfold sqUnknown RepIter.solveSystem
  exact getD_replicate_zero _ i

theorem trialV_lsC (t : ℚ) : RepIter.trialV lsC t = lsC.V := by
  funext i
  unfold RepIter.trialV
  rw [show lsC.unknown = sqUnknown from rfl]
  rw [sqUnknown_getD (3 * i), sqUnknown_getD (3 * i + 1),
    sqUnknown_getD (3 * i + 2)]
  simp

theorem constrEdges_sq : RepIter.constrEdges sqEadj 4 = [] := by decide

theorem lsC_k : lsC.k = 1 := by
  show (CDeriv.run sqEfn (RepIter.Vfn sqV)
    (RepIter.computeL sqEfn (RepIter.Vfn sqV)) sqEadj
    (RepIter.constrEdges sqEadj 4) 4).rows = 1
  rw [CDeriv.run_rows, constrEdges_sq]
  rfl

theorem computeL_lsC : ∀ i, i < 4 → RepIter.computeL lsC.E lsC.V i = 2 := by
  intro i hi
  interval_cases i <;>
    norm_num [RepIter.computeL, lsC, RepIter.Vfn, sqEfn, sqE, sqV, normV,
      sqSumV, subV, List.getD_cons_zero, List.getD_cons_succ, jsqrt_lit_4]

theorem cvals_lsC :
    RepIter.cvals lsC (RepIter.computeL lsC.E lsC.V) = [-4] := by
  unfold RepIter.cvals
  rw [lsC_k]
  have h0 := computeL_lsC 0 (by norm_num)
  have h1 := computeL_lsC 1 (by norm_num)
  have h2 := computeL_lsC 2 (by norm_num)
  have h3 := computeL_lsC 3 (by norm_num)
  rw [show lsC.edgeN = 4 from rfl,
    show List.range 4 = [0, 1, 2, 3] from by decide]
  simp only [List.map_cons, List.map_nil, List.sum_cons, List.sum_nil]
  rw [h0, h1, h2, h3, show lsC.l0 = RepIter.l0Of [1, 1, 1, 1] from rfl]
  norm_num [RepIter.l0Of]

theorem cvLast_lsC (t : ℚ) : RepIter.cvLast lsC t = [-4] := by
  unfold RepIter.cvLast RepIter.projOut
  rw [trialV_lsC t, show lsC.maxIters = 1 from rfl,
    show (1 : ℕ) = 0 + 1 from rfl]
  simp only [RepIter.projLoop]
  rw [cvals_lsC]
  rw [if_neg (by norm_num [normL, lsC, jsqrt_lit_16] :
    ¬ (normL [-4] ≤ lsC.th))]
  rfl

theorem VnewOf_lsC (t : ℚ) : RepIter.VnewOf lsC t = lsC.V := by
  unfold RepIter.VnewOf RepIter.projOut
  rw [trialV_lsC t, show lsC.maxIters = 1 from rfl,
    show (1 : ℕ) = 0 + 1 from rfl]
  simp only [RepIter.projLoop]
  rw [cvals_lsC]
  rw [if_neg (by norm_num [normL, lsC, jsqrt_lit_16] :
    ¬ (normL [-4] ≤ lsC.th))]
  funext i
  have hz : ∀ m : ℕ, (RepIter.solveSystem (fun _ _ => 0)
      (RepIter.right2 lsC [-4])).getD m 0 = 0 := by
    intro m
    unfold RepIter.solveSystem
    exact getD_replicate_zero _ m
  simp only [hz, addV, add_zero]

theorem accepted_lsC_false (t : ℚ) : RepIter.accepted lsC t = false := by
  unfold RepIter.accepted
  rw [cvLast_lsC t,
    decide_eq_false (by norm_num [normL, lsC, jsqrt_lit_16] :
      ¬ (normL [-4] < lsC.th)),
    Bool.and_false]

theorem lineSearch_lsC_running : ∀ (fuel : ℕ) (t : ℚ),
    RepIter.lineSearchFuel lsC fuel t =
      RepIter.LsRes.running (t * (1 / 2) ^ fuel) := by
  intro fuel
  induction fuel with
  | zero =>
    intro t
    unfold RepIter.lineSearchFuel
    rw [pow_zero, mul_one]
  | succ fuel ih =>
    intro t
    unfold RepIter.lineSearchFuel
    rw [accepted_lsC_false t]
    simp only [Bool.false_eq_true, if_false]
    rw [ih (t * lsC.bC)]
    refine congrArg RepIter.LsRes.running ?_
    rw [show lsC.bC = 1 / 2 from rfl]
    ring

theorem descentDir_sq (j : ℕ) : RepIter.descentDir 4 sqUnknown j = 0 := by
  unfold RepIter.descentDir
  split
  · rw [sqUnknown_getD j, neg_zero]
  · rfl

theorem ddirN_lsC (i : ℕ) : lsC.ddirN i = 0 := by
  show RepIter.normalizeFlat 4 (RepIter.descentDir 4 sqUnknown) i = 0
  unfold RepIter.normalizeFlat
  rw [descentDir_sq i, zero_mul]

theorem dot_lsC : dotL (3 * lsC.ptN) lsC.ddirN lsC.derivN = 0 := by
  unfold dotL
  have h : List.map (fun i => lsC.ddirN i * lsC.derivN i)
      (List.range (3 * lsC.ptN)) =
      List.map (fun _ => (0 : ℚ)) (List.range (3 * lsC.ptN)) :=
    List.map_congr_left (fun i _ => by rw [ddirN_lsC i, zero_mul])
  rw [h]
  simp

theorem armijo_lsC (t : ℚ) :
    RepIter.fDelta lsC t ≤ RepIter.rightSide lsC t := by
  unfold RepIter.fDelta RepIter.rightSide
  rw [VnewOf_lsC t, dot_lsC, zero_mul, zero_add]

theorem foldl_sq_const_zero : ∀ l : List ℚ, (∀ x ∈ l, x = 0) → ∀ s : ℚ,
    l.foldl (fun s x => s + x * x) s = s := by
  intro l
  induction l with
  | nil => intro _ s; rfl
  | cons hd tl ih =>
    intro hall s
    rw [List.foldl_cons, hall hd (List.mem_cons_self hd tl), mul_zero,
      add_zero]
    exact ih (fun x hx => hall x (List.mem_cons_of_mem hd hx)) s

theorem normL_zeros (l : List ℚ) (h : ∀ x ∈ l, x = 0) : normL l = 0 := by
  unfold normL
  rw [foldl_sq_const_zero l h 0, jsqrt_lit_0]

/-- C1: the acceptance test of the line search is NOT the Armijo inequality
alone.  On the square fixture (with rest lengths `[1,1,1,1]`, so the residual
is 4 and the threshold 1), the Armijo inequality holds at `t = 1` — the
descent direction is the zero vector, so both sides are the old energy — yet
the step is rejected, because the acceptance test of line 241–244 also
requires the constraint residual to be strictly below the threshold. -/
theorem claim1_counterexample :
    RepIter.fDelta lsC 1 ≤ RepIter.rightSide lsC 1 ∧
      RepIter.accepted lsC 1 = false :=
  ⟨armijo_lsC 1, accepted_lsC_false 1⟩

/-- C1 (amended): a trial step is accepted exactly when the Armijo
inequality AND the strict residual test (`‖constraint_vals‖ < threshold`,
reading the last declared value of that block-local variable) both hold; on
rejection the step size is multiplied by `b_const`, and on acceptance the
loop stops with the projected trial vertices. -/
theorem claim1_accept_semantics (ls : RepIter.LS) (t : ℚ) (fuel : ℕ) :
    (RepIter.accepted ls t = true ↔
      RepIter.fDelta ls t ≤ RepIter.rightSide ls t ∧
        normL (RepIter.cvLast ls t) < ls.th) ∧
    RepIter.lineSearchFuel ls (fuel + 1) t =
      (if RepIter.accepted ls t then RepIter.LsRes.done (RepIter.VnewOf ls t)
        else RepIter.lineSearchFuel ls fuel (t * ls.bC)) := by
  constructor
  · unfold RepIter.accepted
    rw [Bool.and_eq_true, decide_eq_true_eq, decide_eq_true_eq]
  · rfl

/-- C2: the line search has no step-size floor and need not terminate.  On
the square fixture every trial step is rejected (the residual stays at 4,
above the threshold 1, because the stubbed solver gives a zero update), so
after any number of passes the `while (true)` loop is still running with
`t = b_const ^ passes`; after 40 passes `t` is already below the `1e-10`
floor the specification describes, and no abort has happened. -/
theorem claim2_no_step_floor :
    (∀ (fuel : ℕ) (t : ℚ), RepIter.lineSearchFuel lsC fuel t =
      RepIter.LsRes.running (t * (1 / 2) ^ fuel)) ∧
    RepIter.runningT (RepIter.lineSearchFuel lsC 40 1) =
      some (1 * (1 / 2) ^ 40) ∧
    1 * ((1 : ℚ) / 2) ^ 40 < 1 / 10 ^ 10 := by
  refine ⟨fun fuel t => lineSearch_lsC_running fuel t, ?_, by norm_num⟩
  rw [lineSearch_lsC_running 40 1]
  rfl

/-- C3: the placeholder `solveSystem` returns the all-zero vector for every
input system, so `Unknown` is identically zero, the descent direction is the
zero vector, its norm (the divisor of the normalization step) is zero, and
every trial step leaves the vertices unchanged. -/
theorem claim3_stub_solver (A : MatQ) (b : List ℚ) (n idx : ℕ)
    (ls : RepIter.LS) (t : ℚ) (i : ℕ)
    (h : ls.unknown = RepIter.solveSystem A b) :
    RepIter.solveSystem A b = List.replicate b.length 0 ∧
    RepIter.descentDir n (RepIter.solveSystem A b) idx = 0 ∧
    RepIter.flatNorm n (RepIter.descentDir n (RepIter.solveSystem A b)) = 0 ∧
    RepIter.trialV ls t i = ls.V i := by
  have hd : ∀ m : ℕ, RepIter.descentDir n (RepIter.solveSystem A b) m = 0 := by
    intro m
    unfold RepIter.descentDir RepIter.solveSystem
    split
    · rw [getD_replicate_zero, neg_zero]
    · rfl
  refine ⟨rfl, hd idx, ?_, ?_⟩
  · unfold RepIter.flatNorm
    apply normL_zeros
    intro x hx
    obtain ⟨m, _, rfl⟩ := List.mem_map.mp hx
    exact hd m
  · unfold RepIter.trialV
    rw [h]
    unfold RepIter.solveSystem
    rw [getD_replicate_zero, getD_replicate_zero, getD_replicate_zero]
    simp

/-- C3 witness: the square fixture's line-search state was built with
exactly that stubbed solve. -/
theorem claim3_stub_solver_witness :
    lsC.unknown = RepIter.solveSystem (fun _ _ => 0)
      ((List.range 12).map sqDeriv ++ List.replicate 1 0) ∧
    (RepIter.solveSystem (fun _ _ => 0)
        ((List.range 12).map sqDeriv ++ List.replicate 1 0) =
      List.replicate
        ((List.range 12).map sqDeriv ++ List.replicate 1 0).length 0 ∧
    RepIter.descentDir 4 (RepIter.solveSystem (fun _ _ => 0)
      ((List.range 12).map sqDeriv ++ List.replicate 1 0)) 0 = 0 ∧
    RepIter.flatNorm 4 (RepIter.descentDir 4 (RepIter.solveSystem
      (fun _ _ => 0)
      ((List.range 12).map sqDeriv ++ List.replicate 1 0))) = 0 ∧
    RepIter.trialV lsC 1 0 = lsC.V 0) :=
  ⟨rfl, claim3_stub_solver (fun _ _ => 0)
    ((List.range 12).map sqDeriv ++ List.replicate 1 0) 4 0 lsC 1 0 rfl⟩

/-- C4 (amended): the acceptance test is never reached.  `Deriv` is declared
`const` and reassigned at the normalization step (line 124), so under
JavaScript binding semantics every call whose edges reference in-range
vertices faults there with the `const`-assignment `TypeError` — not with the
undefined-variable `ReferenceError` the claim describes at the acceptance
test. -/
theorem claim4_const_fault (c : RepIter.Ctx) (V : List Vec3)
    (hE : ∀ e ∈ c.E, e.1 < V.length ∧ e.2 < V.length) :
    RepIter.run c V = Except.error RepIter.JsErr.assignmentToConst ∧
      RepIter.run c V ≠ Except.error RepIter.JsErr.referenceError := by
  have h := RepIter.run_faults c V hE
  refine ⟨h, ?_⟩
  rw [h]
  intro hc
  exact absurd (Except.error.inj hc) (by decide)

/-- C4 witness: the square call. -/
theorem claim4_const_fault_witness :
    RepIter.run sqCtx sqV = Except.error RepIter.JsErr.assignmentToConst ∧
      RepIter.run sqCtx sqV ≠ Except.error RepIter.JsErr.referenceError :=
  claim4_const_fault sqCtx sqV (by decide)

/-- C4 counterexample: on the square input the Armijo inequality does hold
numerically (at `t = 1`), yet the call does not fault with an
undefined-variable error — it faults with the `const`-assignment `TypeError`
before the line search begins. -/
theorem claim4_counterexample :
    RepIter.fDelta lsC 1 ≤ RepIter.rightSide lsC 1 ∧
      RepIter.run sqCtx sqV ≠ Except.error RepIter.JsErr.referenceError := by
  refine ⟨armijo_lsC 1, ?_⟩
  rw [RepIter.run_faults sqCtx sqV (by decide)]
  intro hc
  exact absurd (Except.error.inj hc) (by decide)

/-- Degenerate-geometry fixture: the first edge joins two coincident
vertices, so its current length is 0. -/
def degV : List Vec3 := [⟨0, 0, 0⟩, ⟨0, 0, 0⟩, ⟨5, 0, 0⟩, ⟨9, 0, 0⟩]

/-- Degenerate fixture's edges. -/
def degE : List (ℕ × ℕ) := [(0, 1), (2, 3)]

/-- Degenerate fixture's edge index function. -/
def degEfn : ℕ → ℕ × ℕ := fun i => degE.getD i (0, 0)

/-- A call context for `repulsion_iteration` on the degenerate fixture. -/
def degCtx : RepIter.Ctx :=
  { alpha := 2, beta := 4, aConst := 1 / 4, bConst := 1 / 2, threshold := 1,
    maxIters := 1, E := degE, Ac := InitCurve.buildAc degEfn 2,
    Eadj := InitCurve.buildEadj degEfn 2 4, lengths := [1, 4] }

/-- C5: no degeneracy check exists.  On an input whose first edge has two
coincident endpoints, the computed edge length is 0, and the call does not
fail with any `DegenerateGeometry` error before matrix assembly — the BUILD
phase (weights, Gram matrix, derivatives) runs to completion and the call
then faults at the unrelated `const` reassignment of `Deriv`. -/
theorem claim5_no_degeneracy_check :
    RepIter.computeL (RepIter.Efn degCtx) (RepIter.Vfn degV) 0 = 0 ∧
      RepIter.run degCtx degV =
        Except.error RepIter.JsErr.assignmentToConst := by
  constructor
  · norm_num [RepIter.computeL, RepIter.Efn, RepIter.Vfn, degCtx, degE, degV,
      normV, sqSumV, subV, List.getD_cons_zero, List.getD_cons_succ,
      jsqrt_lit_0]
  · exact RepIter.run_faults degCtx degV (by decide)

/-- C6: the topology cache of `init_curve`.  For an edge list of `M` edges
over `N` vertices: `J ∈ Ac[I]` iff `J` is an edge index distinct from `I`
whose edge shares no endpoint with edge `I` (the 4-comparison test);
membership is symmetric; no row contains its own index; and `E_adj[p]`
contains exactly the edges with an endpoint equal to `p`. -/
theorem claim6_topology (E : ℕ → ℕ × ℕ) (M N I J p j : ℕ)
    (hI : I < M) (hp : p < N) :
    (J ∈ (InitCurve.buildAc E M).getD I [] ↔
      J < M ∧ I ≠ J ∧
        ¬ ((E I).1 = (E J).1 ∨ (E I).1 = (E J).2 ∨
          (E I).2 = (E J).1 ∨ (E I).2 = (E J).2)) ∧
    (J ∈ (InitCurve.buildAc E M).getD I [] ↔
      I ∈ (InitCurve.buildAc E M).getD J []) ∧
    I ∉ (InitCurve.buildAc E M).getD I [] ∧
    (j ∈ (InitCurve.buildEadj E M N).getD p [] ↔
      j < M ∧ ((E j).1 = p ∨ (E j).2 = p)) := by
  have hsv : ∀ A B : ℕ, InitCurve.sharesVertex E A B = false ↔
      ¬ ((E A).1 = (E B).1 ∨ (E A).1 = (E B).2 ∨
        (E A).2 = (E B).1 ∨ (E A).2 = (E B).2) := by
    intro A B
    unfold InitCurve.sharesVertex
    simp [not_or, and_assoc]
  refine ⟨?_, ?_, ?_, InitCurve.mem_buildEadj_row hp⟩
  · rw [InitCurve.mem_buildAc_row hI]
    constructor
    · rintro ⟨hJM, hf⟩
      refine ⟨hJM, ?_, (hsv I J).mp hf⟩
      rintro rfl
      rw [InitCurve.sharesVertex_refl E I] at hf
      exact absurd hf (by simp)
    · rintro ⟨hJM, _, hnot⟩
      exact ⟨hJM, (hsv I J).mpr hnot⟩
  · by_cases hJ : J < M
    · rw [InitCurve.mem_buildAc_row hI, InitCurve.mem_buildAc_row hJ,
        InitCurve.sharesVertex_symm E I J]
      constructor
      · rintro ⟨_, hf⟩
        exact ⟨hI, hf⟩
      · rintro ⟨_, hf⟩
        exact ⟨hJ, hf⟩
    · rw [InitCurve.buildAc_row_empty hJ]
      constructor
      · intro hmem
        rw [InitCurve.mem_buildAc_row hI] at hmem
        exact absurd hmem.1 hJ
      · intro hmem
        exact absurd hmem (List.not_mem_nil I)
  · intro hmem
    rw [InitCurve.mem_buildAc_row hI] at hmem
    rw [InitCurve.sharesVertex_refl E I] at hmem
    exact absurd hmem.2 (by simp)

/-- C6 witness: the square, edges `I = 0`, `J = 2` (opposite sides, disjoint)
and vertex `p = 0` with incident edge `j = 3`. -/
theorem claim6_topology_witness :
    (0 : ℕ) < 4 ∧
    ((2 ∈ (InitCurve.buildAc sqEfn 4).getD 0 [] ↔
      2 < 4 ∧ (0 : ℕ) ≠ 2 ∧
        ¬ ((sqEfn 0).1 = (sqEfn 2).1 ∨ (sqEfn 0).1 = (sqEfn 2).2 ∨
          (sqEfn 0).2 = (sqEfn 2).1 ∨ (sqEfn 0).2 = (sqEfn 2).2)) ∧
    (2 ∈ (InitCurve.buildAc sqEfn 4).getD 0 [] ↔
      0 ∈ (InitCurve.buildAc sqEfn 4).getD 2 []) ∧
    0 ∉ (InitCurve.buildAc sqEfn 4).getD 0 [] ∧
    (3 ∈ (InitCurve.buildEadj sqEfn 4 4).getD 0 [] ↔
      3 < 4 ∧ ((sqEfn 3).1 = 0 ∨ (sqEfn 3).2 = 0))) :=
  ⟨by norm_num,
    claim6_topology sqEfn 4 4 0 2 0 3 (by norm_num) (by norm_num)⟩

/-- The fixture geometry for the weight and Gram matrices: two disjoint
segments with all pairwise endpoint distances rational (a Pythagorean
configuration): a horizontal segment of length 12 and a vertical one of
length 4, with distances 5, 9, 13, 15 between their endpoints. -/
def pyV : List Vec3 := [⟨0, 0, 0⟩, ⟨12, 0, 0⟩, ⟨0, 5, 0⟩, ⟨0, 9, 0⟩]

/-- Pythagorean fixture's edges. -/
def pyE : List (ℕ × ℕ) := [(0, 1), (2, 3)]

/-- Pythagorean fixture's edge index function. -/
def pyEfn : ℕ → ℕ × ℕ := fun i => pyE.getD i (0, 0)

/-- Pythagorean fixture's disjointness lists (`[[1], [0]]`). -/
def pyAc : List (List ℕ) := InitCurve.buildAc pyEfn 2

/-- Pythagorean fixture's current edge lengths. -/
def pyL : ℕ → ℚ := RepIter.computeL pyEfn (RepIter.Vfn pyV)

/-- Pythagorean fixture's unit tangents. -/
def pyT : ℕ → Vec3 := RepIter.computeT pyEfn (RepIter.Vfn pyV)

/-- Pythagorean fixture's weight matrix `W`. -/
def pyW : MatQ :=
  (BuildWeights.run 2 4 pyEfn pyAc (RepIter.Vfn pyV) pyT pyL).1

/-- Pythagorean fixture's weight matrix `W0`. -/
def pyW0 : MatQ :=
  (BuildWeights.run 2 4 pyEfn pyAc (RepIter.Vfn pyV) pyT pyL).2

/-- A concrete direction vector for the quadratic-form witness. -/
def pyX : ℕ → ℚ := fun idx => (idx : ℚ)

theorem computeL_nonneg (E : ℕ → ℕ × ℕ) (V : ℕ → Vec3) (i : ℕ) :
    0 ≤ RepIter.computeL E V i :=
  jsqrt_nonneg _

theorem pyL_0 : pyL 0 = 12 := by
  norm_num [pyL, RepIter.computeL, RepIter.Vfn, pyEfn, pyE, pyV, normV,
    sqSumV, subV, List.getD_cons_zero, List.getD_cons_succ, jsqrt_lit_144]

theorem pyL_1 : pyL 1 = 4 := by
  norm_num [pyL, RepIter.computeL, RepIter.Vfn, pyEfn, pyE, pyV, normV,
    sqSumV, subV, List.getD_cons_zero, List.getD_cons_succ, jsqrt_lit_16]

theorem pyT_0 : pyT 0 = ⟨1, 0, 0⟩ := by
  norm_num [pyT, RepIter.computeT, RepIter.computeL, RepIter.Vfn, pyEfn, pyE,
    pyV, normV, sqSumV, subV, scaleV, List.getD_cons_zero,
    List.getD_cons_succ, jsqrt_lit_144]

theorem pyT_1 : pyT 1 = ⟨0, 1, 0⟩ := by
  norm_num [pyT, RepIter.computeT, RepIter.computeL, RepIter.Vfn, pyEfn, pyE,
    pyV, normV, sqSumV, subV, scaleV, List.getD_cons_zero,
    List.getD_cons_succ, jsqrt_lit_16]

theorem pyT_junk (i : ℕ) (h : 2 ≤ i) : pyT i = ⟨0, 0, 0⟩ := by
  have he : pyEfn i = (0, 0) := by
    unfold pyEfn pyE
    rw [List.getD_eq_default _ _ (by simpa using h)]
  unfold pyT RepIter.computeT RepIter.computeL
  rw [he]
  norm_num [RepIter.Vfn, pyV, normV, sqSumV, subV, scaleV,
    List.getD_cons_zero, jsqrt_lit_0]

theorem pyT_subunit (I : ℕ) : dotV (pyT I) (pyT I) ≤ 1 := by
  match I with
  | 0 =>
    rw [pyT_0]
    norm_num [dotV]
  | 1 =>
    rw [pyT_1]
    norm_num [dotV]
  | (n + 2) =>
    rw [pyT_junk (n + 2) (by omega)]
    norm_num [dotV]

/-- C7: the Gram matrix of `build_A_bar`.  With `W, W0` the outputs of
`build_weights` on the same geometry, non-negative edge lengths and subunit
tangents: the three `N × N` diagonal blocks of the assembled `3N × 3N`
matrix all equal `A = B + B0`, every entry outside the three diagonal blocks
(and outside the `3N` range) is zero, the matrix is symmetric, and its
quadratic form is non-negative (positive semi-definiteness). -/
theorem claim7_Abar (alpha beta : ℚ) (N : ℕ) (E : ℕ → ℕ × ℕ)
    (Ac : List (List ℕ)) (V : ℕ → Vec3) (T : ℕ → Vec3) (L : ℕ → ℚ)
    (W W0 : MatQ) (x : ℕ → ℚ) (i j a b : ℕ)
    (hW : W = (BuildWeights.run alpha beta E Ac V T L).1)
    (hW0 : W0 = (BuildWeights.run alpha beta E Ac V T L).2)
    (hL : ∀ I, 0 ≤ L I)
    (hT : ∀ I, dotV (T I) (T I) ≤ 1)
    (hE : ∀ p ∈ pairList Ac, (E p.1).1 < N ∧ (E p.1).2 < N ∧
      (E p.2).1 < N ∧ (E p.2).2 < N)
    (hi : i < N) (hj : j < N) :
    (BuildABar.run N E Ac T L W W0 i j =
        BuildABar.buildA E T L W W0 Ac i j ∧
      BuildABar.run N E Ac T L W W0 (N + i) (N + j) =
        BuildABar.buildA E T L W W0 Ac i j ∧
      BuildABar.run N E Ac T L W W0 (N + (N + i)) (N + (N + j)) =
        BuildABar.buildA E T L W W0 Ac i j) ∧
    (¬ (a < 3 * N ∧ b < 3 * N ∧ a / N = b / N) →
      BuildABar.run N E Ac T L W W0 a b = 0) ∧
    BuildABar.run N E Ac T L W W0 a b = BuildABar.run N E Ac T L W W0 b a ∧
    0 ≤ QF (BuildABar.run N E Ac T L W W0) (3 * N) x := by
  have hWnn : ∀ p ∈ pairList Ac, 0 ≤ W p.1 p.2 := by
    intro p hp
    rw [hW, BuildWeights.run_fst_eq alpha beta E Ac V T L p.1 p.2,
      if_pos (show (p.1, p.2) ∈ pairList Ac from hp)]
    exact BuildWeights.wval_nonneg alpha beta E V L p.1 p.2 (hL p.1) (hL p.2)
  have hW0nn : ∀ p ∈ pairList Ac, 0 ≤ W0 p.1 p.2 := by
    intro p hp
    rw [hW0, BuildWeights.run_snd_eq alpha beta E Ac V T L p.1 p.2,
      if_pos (show (p.1, p.2) ∈ pairList Ac from hp)]
    exact BuildWeights.w0val_nonneg alpha beta E V T L p.1 p.2 (hL p.1)
      (hL p.2)
  refine ⟨⟨BuildABar.run_diag0 E Ac T L W W0 hi hj,
    BuildABar.run_diag1 E Ac T L W W0 hi hj,
    BuildABar.run_diag2 E Ac T L W W0 hi hj⟩, ?_,
    BuildABar.run_symm N E Ac T L W W0 a b,
    BuildABar.QF_run_nonneg E T L W W0 Ac x hE hWnn hW0nn hT⟩
  intro hno
  rw [BuildABar.run_entry, if_neg hno]

/-- C7 witness: the Pythagorean fixture with `N = 4`, entries `(0, 1)` and
the direction vector `idx ↦ idx`. -/
theorem claim7_Abar_witness :
    BuildABar.run 4 pyEfn pyAc pyT pyL pyW pyW0 0 1 =
        BuildABar.buildA pyEfn pyT pyL pyW pyW0 pyAc 0 1 ∧
      BuildABar.run 4 pyEfn pyAc pyT pyL pyW pyW0 0 1 =
        BuildABar.run 4 pyEfn pyAc pyT pyL pyW pyW0 1 0 ∧
      0 ≤ QF (BuildABar.run 4 pyEfn pyAc pyT pyL pyW pyW0) (3 * 4) pyX := by
  have h := claim7_Abar 2 4 4 pyEfn pyAc (RepIter.Vfn pyV) pyT pyL pyW pyW0
    pyX 0 1 0 1 rfl rfl (fun I => computeL_nonneg pyEfn (RepIter.Vfn pyV) I)
    pyT_subunit (by decide) (by norm_num) (by norm_num)
  exact ⟨h.1.1, h.2.2.1, h.2.2.2⟩

/-- C8 (amended): entries of both weight matrices outside the disjoint-pair
positions are zero, and `W` is symmetric at positions whose disjointness is
symmetric (the claim's `W0` symmetry is refuted by the counterexample). -/
theorem claim8_weights (alpha beta : ℚ) (E : ℕ → ℕ × ℕ) (Ac : List (List ℕ))
    (V T : ℕ → Vec3) (L : ℕ → ℚ) (I J A B : ℕ)
    (hIJ : (I, J) ∉ pairList Ac)
    (hAB : ((A, B) ∈ pairList Ac) ↔ ((B, A) ∈ pairList Ac)) :
    (BuildWeights.run alpha beta E Ac V T L).1 I J = 0 ∧
    (BuildWeights.run alpha beta E Ac V T L).2 I J = 0 ∧
    (BuildWeights.run alpha beta E Ac V T L).1 A B =
      (BuildWeights.run alpha beta E Ac V T L).1 B A := by
  refine ⟨?_, ?_, ?_⟩
  · rw [BuildWeights.run_fst_eq, if_neg hIJ]
  · rw [BuildWeights.run_snd_eq, if_neg hIJ]
  · rw [BuildWeights.run_fst_eq, BuildWeights.run_fst_eq]
    by_cases h : (A, B) ∈ pairList Ac
    · rw [if_pos h, if_pos (hAB.mp h), BuildWeights.wval_symm]
    · rw [if_neg h, if_neg (fun hc => h (hAB.mpr hc))]

/-- C8 witness: the Pythagorean fixture, positions `(0, 0)` (not a disjoint
pair — the diagonal) and `(0, 1)` (a disjoint pair). -/
theorem claim8_weights_witness :
    (BuildWeights.run 2 4 pyEfn pyAc (RepIter.Vfn pyV) pyT pyL).1 0 0 = 0 ∧
    (BuildWeights.run 2 4 pyEfn pyAc (RepIter.Vfn pyV) pyT pyL).2 0 0 = 0 ∧
    (BuildWeights.run 2 4 pyEfn pyAc (RepIter.Vfn pyV) pyT pyL).1 0 1 =
      (BuildWeights.run 2 4 pyEfn pyAc (RepIter.Vfn pyV) pyT pyL).1 1 0 :=
  claim8_weights 2 4 pyEfn pyAc (RepIter.Vfn pyV) pyT pyL 0 0 0 1
    (by decide) (by decide)

/-- C8 counterexample: `W0` is NOT symmetric.  Its kernel takes the cross
product against the tangent of edge `I` only (`T.row(I)`), so on the
Pythagorean fixture — where the two tangents are not parallel —
`W0[0,1] ≠ W0[1,0]`. -/
theorem claim8_counterexample :
    (BuildWeights.run 2 4 pyEfn pyAc (RepIter.Vfn pyV) pyT pyL).2 0 1 ≠
      (BuildWeights.run 2 4 pyEfn pyAc (RepIter.Vfn pyV) pyT pyL).2 1 0 := by
  rw [BuildWeights.run_snd_eq, BuildWeights.run_snd_eq,
    if_pos (show ((0 : ℕ), (1 : ℕ)) ∈ pairList pyAc from by decide),
    if_pos (show ((1 : ℕ), (0 : ℕ)) ∈ pairList pyAc from by decide)]
  have hex : 2 * BuildWeights.sigma 2 4 + 1 = 4 := by
    norm_num [BuildWeights.sigma]
  unfold BuildWeights.w0val BuildWeights.elt2 abPairs
  simp only [List.foldl_cons, List.foldl_nil]
  unfold BuildWeights.incrB
  rw [hex]
  rw [pyL_0, pyL_1, pyT_0, pyT_1]
  norm_num [ept, pyEfn, pyE, RepIter.Vfn, pyV, normV, sqSumV, subV, crossV,
    List.getD_cons_zero, List.getD_cons_succ, jsqrt_lit_0, jsqrt_lit_25,
    jsqrt_lit_81, jsqrt_lit_144, jsqrt_lit_169, jsqrt_lit_225, jpow_two,
    jpow_four]

/-- Double-branch fixture for the constraint counting: 6 vertices, 5 edges,
two branch vertices (0 and 1, both of degree 3), with edge 0 joining the
two branch vertices. -/
def g9E : List (ℕ × ℕ) := [(0, 1), (0, 2), (0, 3), (1, 4), (1, 5)]

/-- Double-branch fixture's edge index function. -/
def g9Efn : ℕ → ℕ × ℕ := fun i => g9E.getD i (0, 0)

/-- Double-branch fixture's incidence lists. -/
def g9Eadj : List (List ℕ) := InitCurve.buildEadj g9Efn 5 6

theorem g9Eadj_nodup (p : ℕ) : (g9Eadj.getD p []).Nodup := by
  by_cases h : p < 6
  · interval_cases p <;> decide
  · rw [List.getD_eq_default _ _ (by
      simpa [g9Eadj, InitCurve.buildEadj] using Nat.le_of_not_lt h)]
    exact List.nodup_nil

/-- C9 (amended): the constraint Jacobian has `1 + three_way` rows, where
`three_way` counts (branch vertex, incident edge) INCIDENCES — an edge is
pushed once per branch endpoint, so an edge joining two branch vertices is
constrained twice.  The multiplicity of edge `I` in `constr_edges` is the
number of branch vertices it touches (when incidence rows have no
duplicates). -/
theorem claim9_constraint_rows (E_adj : List (List ℕ)) (N I : ℕ)
    (E : ℕ → ℕ × ℕ) (V : ℕ → Vec3) (L : ℕ → ℚ) (pt_num : ℕ)
    (hnd : ∀ p, (E_adj.getD p []).Nodup) :
    (CDeriv.run E V L E_adj (RepIter.constrEdges E_adj N) pt_num).rows =
      1 + RepIter.threeWay E_adj N ∧
    (RepIter.constrEdges E_adj N).count I =
      ((List.range N).filter
        (fun p => decide (2 < (E_adj.getD p []).length ∧
          I ∈ E_adj.getD p []))).length :=
  ⟨by rw [CDeriv.run_rows, constrEdges_length],
    constrEdges_count E_adj N I hnd⟩

/-- C9 witness: the double-branch fixture. -/
theorem claim9_constraint_rows_witness :
    (CDeriv.run g9Efn (fun _ => ⟨0, 0, 0⟩) (fun _ => 1) g9Eadj
        (RepIter.constrEdges g9Eadj 6) 6).rows =
      1 + RepIter.threeWay g9Eadj 6 ∧
    (RepIter.constrEdges g9Eadj 6).count 0 =
      ((List.range 6).filter
        (fun p => decide (2 < (g9Eadj.getD p []).length ∧
          0 ∈ g9Eadj.getD p []))).length :=
  claim9_constraint_rows g9Eadj 6 0 g9Efn (fun _ => ⟨0, 0, 0⟩) (fun _ => 1) 6
    g9Eadj_nodup

/-- C9 counterexample: on the double-branch fixture the constrained-edge
list is `[0, 1, 2, 0, 3, 4]` — edge 0 appears twice, once per branch
endpoint — so the Jacobian has `1 + 6 = 7` rows, not `1 + 5` as the claim's
"each such edge constrained exactly once / distinct edges" reading
requires. -/
theorem claim9_counterexample :
    RepIter.constrEdges g9Eadj 6 = [0, 1, 2, 0, 3, 4] ∧
    (CDeriv.run g9Efn (fun _ => ⟨0, 0, 0⟩) (fun _ => 1) g9Eadj
        (RepIter.constrEdges g9Eadj 6) 6).rows = 7 ∧
    (RepIter.constrEdges g9Eadj 6).count 0 = 2 ∧
    (RepIter.constrEdges g9Eadj 6).dedup.length = 5 ∧
    (CDeriv.run g9Efn (fun _ => ⟨0, 0, 0⟩) (fun _ => 1) g9Eadj
        (RepIter.constrEdges g9Eadj 6) 6).rows ≠
      1 + (RepIter.constrEdges g9Eadj 6).dedup.length := by
  refine ⟨by decide, ?_, by decide, by decide, ?_⟩
  · rw [CDeriv.run_rows]
    decide
  · rw [CDeriv.run_rows]
    decide

/-- C10 (amended): `init_curve` performs NO topology validation.  Its run
succeeds exactly when every edge references in-range vertex indices — the
`lengths` loop's `V.row` reads are the only place a fault can arise, and no
self-loop check exists. -/
theorem claim10_no_validation (E : List (ℕ × ℕ)) (V : List Vec3) :
    (InitCurve.run E V).isOk = true ↔
      ∀ e ∈ E, e.1 < V.length ∧ e.2 < V.length :=
  InitCurve.run_isOk E V

/-- C10 counterexample: a one-vertex curve whose single edge is a self-loop
is accepted without any `InvalidTopology` error. -/
theorem claim10_counterexample :
    (InitCurve.run [(0, 0)] [⟨0, 0, 0⟩]).isOk = true ∧
      ((0, 0) : ℕ × ℕ).1 = ((0, 0) : ℕ × ℕ).2 := by
  refine ⟨?_, rfl⟩
  rw [InitCurve.run_isOk]
  decide
